import Mathlib

/-!
# Verification of the OS term projects (term1: round-robin scheduler, term2: paging kernel)

The definitions below are a shallow embedding of `src/term2/term2.cpp`
(demand paging with FIFO replacement) and of the scheduler loop of
`src/term1/term1.cpp`.

Conventions of the embedding.

* C++ `int` / `long` values are `Int`.  The counters of the kernel are far from
  overflow: a run makes `SIMULATION_TICKS * ACCESS_PER_TICK = 100000` accesses
  and an access adds at most 1 to a counter.
* `std::vector`, `std::deque` and C arrays are `List`s.  Indexing with an `int`
  is `getI` / `setI`.  The C++ code never checks an index; a read outside the
  container yields the value passed as default to `getI` (for the page table of
  the running process this value is the explicit parameter `oob` of `access`),
  and a write outside the container is not tracked.
* A `PCB*` is the index of the PCB in `pcb_table`.
* Logging and the dashboard are left out, except for the one write of
  `print_system_status` to the kernel state.
* The constants `PROCESS_COUNT`, `TOTAL_FRAMES`, `ACCESS_PER_TICK` and
  `SIMULATION_TICKS` are fields of `Config`; `source_config` carries the values
  of the `#define`s.
-/

namespace OS2025

/-! ## Indexing with a C++ `int` -/

/-- Read `l[i]` for an `int` index; `d` is what a read outside `l` yields. -/
def getI {α : Type} (l : List α) (i : Int) (d : α) : α :=
  if 0 ≤ i then l.getD i.toNat d else d

/-- Write `l[i] = a` for an `int` index; a write outside `l` is not tracked. -/
def setI {α : Type} (l : List α) (i : Int) (a : α) : List α :=
  if 0 ≤ i then l.set i.toNat a else l

/-! ## term2: configuration and data structures -/

/-- The `#define`d constants of term2.cpp. -/
structure Config where
  PROCESS_COUNT : Nat
  SIMULATION_TICKS : Nat
  TOTAL_FRAMES : Nat
  ACCESS_PER_TICK : Nat
  deriving DecidableEq, Repr

/-- Values of the constants in the source: 10 processes, 10000 ticks,
`PHY_MEM_SIZE / PAGE_SIZE = 512` frames, 10 accesses per tick. -/
def source_config : Config :=
  { PROCESS_COUNT := 10, SIMULATION_TICKS := 10000,
    TOTAL_FRAMES := (512 * 4096) / 4096, ACCESS_PER_TICK := 10 }

/-- Size given to every page table by `page_table.resize(200, ...)`. -/
def PAGE_TABLE_SIZE : Nat := 200

/-- The `struct PageEntry`. -/
structure PageEntry where
  valid : Bool
  is_swapped : Bool
  frame_number : Int
  deriving DecidableEq, Repr

/-- The `struct FrameInfo`: reverse mapping frame -> owner. -/
structure FrameInfo where
  pid : Int
  page_idx : Int
  deriving DecidableEq, Repr

/-- The `struct MsgBuf`; `access_pages i` is `access_pages[i]`. -/
structure MsgBuf where
  mtype : Int
  pid : Int
  cpu_burst : Int
  io_burst : Int
  access_pages : Nat → Int

/-- The `struct PCB`. -/
structure PCB where
  pid : Int
  logical_pid : Int
  cpu_burst : Int
  io_burst : Int
  io_remaining : Int
  page_fault_count : Int
  swap_count : Int
  page_table : List PageEntry
  deriving DecidableEq, Repr

/-- The entry `{false, false, -1}` every page table is filled with. -/
def PageEntry.initial : PageEntry := { valid := false, is_swapped := false, frame_number := -1 }

/-- The value `{-1, -1}` (no owner) every frame_table slot starts with. -/
def FrameInfo.none : FrameInfo := { pid := -1, page_idx := -1 }

/-- A value-initialised `new PCB()`. -/
def PCB.zero : PCB :=
  { pid := 0, logical_pid := 0, cpu_burst := 0, io_burst := 0, io_remaining := 0,
    page_fault_count := 0, swap_count := 0, page_table := [] }

/-- Global variables of term2.cpp together with the locals of `run_kernel`
that live across ticks. -/
structure Kernel where
  free_frame_list : List Int
  active_frames_queue : List Int
  frame_table : List FrameInfo
  total_page_faults : Int
  total_swap_outs : Int
  total_access : Int
  last_victim_frame : Int
  pcb_table : List PCB
  run_queue : List Int
  wait_queue : List Int
  tick : Int
  deriving DecidableEq, Repr

/-- What one iteration of the access loop reports through `log_event`:
hit with `entry.frame_number`, or page fault with the locals
`allocated_frame`, `replacement_occurred`, `victim_pid`; `victim_page` is
`info.page_idx` of the replaced frame (-1 when nothing is replaced). -/
structure AccessResult where
  hit : Bool
  frame : Int
  replacement_occurred : Bool
  victim_pid : Int
  victim_page : Int
  deriving DecidableEq, Repr

/-- Update `pcb_table[i]->...` through a pointer. -/
def updPCB (t : List PCB) (i : Int) (f : PCB → PCB) : List PCB :=
  setI t i (f (getI t i PCB.zero))

/-- Read of `pcb_table[p]->page_table[v]`. -/
def entryOf (s : Kernel) (p v : Int) : PageEntry :=
  getI (getI s.pcb_table p PCB.zero).page_table v PageEntry.initial

/-! ## term2: `run_kernel` -/

/-- Initialisation part of `run_kernel` (lines 186-203): all frames free and
unowned, one PCB per process with an all-invalid page table of 200 entries,
every PCB in the run queue. -/
def init (cfg : Config) : Kernel :=
  { free_frame_list := (List.range cfg.TOTAL_FRAMES).map Int.ofNat
    active_frames_queue := []
    frame_table := List.replicate cfg.TOTAL_FRAMES FrameInfo.none
    total_page_faults := 0
    total_swap_outs := 0
    total_access := 0
    last_victim_frame := -1
    pcb_table := (List.range cfg.PROCESS_COUNT).map fun i =>
      { PCB.zero with logical_pid := Int.ofNat i
                      page_table := List.replicate PAGE_TABLE_SIZE PageEntry.initial }
    run_queue := (List.range cfg.PROCESS_COUNT).map Int.ofNat
    wait_queue := []
    tick := 0 }

/-- Statement `current_proc->page_fault_count++` (line 237). -/
def PCB.count_fault (c : PCB) : PCB :=
  { c with page_fault_count := c.page_fault_count + 1 }

/-- Statements of lines 261-263 on the PCB of the victim:
`page_table[w].valid = false; page_table[w].is_swapped = true; swap_count++`. -/
def PCB.swap_out (c : PCB) (w : Int) : PCB :=
  { c with
    page_table := setI c.page_table w
      { getI c.page_table w PageEntry.initial with valid := false, is_swapped := true }
    swap_count := c.swap_count + 1 }

/-- Statements of lines 269-271 through the reference `entry`:
`entry.frame_number = allocated_frame; entry.valid = true; entry.is_swapped = false`. -/
def PCB.map_page (c : PCB) (v : Int) (allocated_frame : Int) : PCB :=
  { c with
    page_table := setI c.page_table v
      { valid := true, is_swapped := false, frame_number := allocated_frame } }

/-- Body of the access loop (lines 225-292) for the running process
`current_proc` and the page index `page_idx = msg.access_pages[i]`.
`oob` is what `current_proc->page_table[page_idx]` reads when `page_idx` is
outside the vector (the code has no range check). -/
def access (oob : PageEntry) (s : Kernel) (current_proc : Int) (page_idx : Int) :
    Kernel × AccessResult :=
  let s1 := { s with total_access := s.total_access + 1 }
  let cur := getI s1.pcb_table current_proc PCB.zero
  let entry := getI cur.page_table page_idx oob
  if entry.valid then
    (s1, { hit := true, frame := entry.frame_number, replacement_occurred := false,
           victim_pid := -1, victim_page := -1 })
  else
    let s2 := { s1 with
      total_page_faults := s1.total_page_faults + 1
      pcb_table := updPCB s1.pcb_table current_proc PCB.count_fault }
    match s2.free_frame_list with
    | f :: rest =>
      -- 1. a free frame is available
      let allocated_frame := f
      ({ s2 with
          free_frame_list := rest
          pcb_table := updPCB s2.pcb_table current_proc fun c => c.map_page page_idx allocated_frame
          active_frames_queue := s2.active_frames_queue ++ [allocated_frame]
          frame_table := setI s2.frame_table allocated_frame ⟨cur.logical_pid, page_idx⟩ },
       { hit := false, frame := allocated_frame, replacement_occurred := false,
         victim_pid := -1, victim_page := -1 })
    | [] =>
      -- 2. FIFO replacement
      let allocated_frame := s2.active_frames_queue.headD (-1)
      let info := getI s2.frame_table allocated_frame FrameInfo.none
      let victim_pid := info.pid
      let s3 := { s2 with
        total_swap_outs := s2.total_swap_outs + 1
        active_frames_queue := s2.active_frames_queue.tail
        pcb_table :=
          if victim_pid ≠ -1 then updPCB s2.pcb_table victim_pid fun c => c.swap_out info.page_idx
          else s2.pcb_table
        last_victim_frame := allocated_frame }
      ({ s3 with
          pcb_table := updPCB s3.pcb_table current_proc fun c => c.map_page page_idx allocated_frame
          active_frames_queue := s3.active_frames_queue ++ [allocated_frame]
          frame_table := setI s3.frame_table allocated_frame ⟨cur.logical_pid, page_idx⟩ },
       { hit := false, frame := allocated_frame, replacement_occurred := true,
         victim_pid := victim_pid, victim_page := info.page_idx })

/-- A sequence of accesses `(process, page index)` resolved one after the other. -/
def run_accesses (oob : PageEntry) (s : Kernel) (l : List (Int × Int)) : Kernel :=
  l.foldl (fun st a => (access oob st a.1 a.2).1) s

/-- Results reported by a sequence of accesses, in order. -/
def access_results (oob : PageEntry) : Kernel → List (Int × Int) → List AccessResult
  | _, [] => []
  | s, a :: l => (access oob s a.1 a.2).2 :: access_results oob (access oob s a.1 a.2).1 l

/-- Every access is by a process in `[0, PROCESS_COUNT)` to a page in `[0, 200)`. -/
def InRange (cfg : Config) (l : List (Int × Int)) : Prop :=
  ∀ a ∈ l, (0 ≤ a.1 ∧ a.1 < cfg.PROCESS_COUNT) ∧ (0 ≤ a.2 ∧ a.2 < PAGE_TABLE_SIZE)

/-- The states the kernel is in between two accesses: those reached from
initialisation by a sequence of in-range accesses. -/
def Reachable (cfg : Config) (oob : PageEntry) (s : Kernel) : Prop :=
  ∃ l : List (Int × Int), InRange cfg l ∧ s = run_accesses oob (init cfg) l

/-- The result logged by a hit on frame `f`. -/
def AccessResult.hit_on (f : Int) : AccessResult :=
  { hit := true, frame := f, replacement_occurred := false, victim_pid := -1, victim_page := -1 }

/-- The counter `pcb_table[j]->page_fault_count`. -/
def fault_count (s : Kernel) (j : Int) : Int := (getI s.pcb_table j PCB.zero).page_fault_count

/-- The counter `pcb_table[j]->swap_count`. -/
def swaps (s : Kernel) (j : Int) : Int := (getI s.pcb_table j PCB.zero).swap_count

/-- No statistics counter of `s'` is below its value in `s`. -/
def CountersLe (s s' : Kernel) : Prop :=
  s.total_access ≤ s'.total_access ∧ s.total_page_faults ≤ s'.total_page_faults ∧
  s.total_swap_outs ≤ s'.total_swap_outs ∧
  ∀ j : Int, fault_count s j ≤ fault_count s' j ∧ swaps s j ≤ swaps s' j

/-- The allocations `(process, page, frame)` made by the page faults of a run
of accesses with the given results, in the order of the faults. -/
def allocations : List (Int × Int) → List AccessResult → List (Int × Int × Int)
  | a :: l, r :: rs =>
    if r.hit then allocations l rs else (a.1, a.2, r.frame) :: allocations l rs
  | _, _ => []

/-- The allocations `(process, page, frame)` ended by the replacements of a
run, in the order of the replacements. -/
def evictions : List AccessResult → List (Int × Int × Int)
  | [] => []
  | r :: rs =>
    if r.replacement_occurred then (r.victim_pid, r.victim_page, r.frame) :: evictions rs
    else evictions rs

/-- The allocations that are live in state `s`: the frames of the FIFO queue,
front first, each with the owner recorded in `frame_table`. -/
def live_allocations (s : Kernel) : List (Int × Int × Int) :=
  s.active_frames_queue.map fun f =>
    ((getI s.frame_table f FrameInfo.none).pid, (getI s.frame_table f FrameInfo.none).page_idx, f)

instance decidableInRange (cfg : Config) (l : List (Int × Int)) : Decidable (InRange cfg l) := by
  unfold InRange; infer_instance

/-- The configuration of the source with `TOTAL_FRAMES` set to 2 (scenarios 1 and 2). -/
def two_frames : Config := { source_config with TOTAL_FRAMES := 2 }

/-- The `while (wq_size--)` loop of lines 208-214: every blocked process has
its `io_remaining` decremented and goes to the run queue when it reaches 0,
to the back of the wait queue otherwise. -/
def drain_wait_queue : Nat → Kernel → Kernel
  | 0, s => s
  | n + 1, s =>
    match s.wait_queue with
    | [] => s
    | proc :: rest =>
      let io := (getI s.pcb_table proc PCB.zero).io_remaining - 1
      let s1 := { s with
        wait_queue := rest
        pcb_table := updPCB s.pcb_table proc fun c => { c with io_remaining := io } }
      drain_wait_queue n
        (if io ≤ 0 then { s1 with run_queue := s1.run_queue ++ [proc] }
         else { s1 with wait_queue := s1.wait_queue ++ [proc] })

/-- The accesses `(current_proc, msg.access_pages[i])`, `i = 0 .. n-1`, of one burst. -/
def burst_accesses (current_proc : Int) (msg : MsgBuf) (n : Nat) : List (Int × Int) :=
  (List.range n).map fun i => (current_proc, msg.access_pages i)

/-- The only write of `print_system_status` (lines 100-154) to the state of
the kernel: `last_victim_frame = -1`. -/
def print_system_status (s : Kernel) : Kernel :=
  { s with last_victim_frame := -1 }

/-- Lines 217-296 of the tick: the process `current_proc` popped from the run
queue, which leaves `rest`, has the `ACCESS_PER_TICK` accesses of the reply
`msg` resolved, takes `cpu_burst` from the reply and goes to the back of the
run queue. -/
def run_burst (cfg : Config) (oob : PageEntry) (s1 : Kernel) (msg : MsgBuf)
    (current_proc : Int) (rest : List Int) : Kernel :=
  let s3 := run_accesses oob { s1 with run_queue := rest }
    (burst_accesses current_proc msg cfg.ACCESS_PER_TICK)
  { s3 with
    pcb_table := updPCB s3.pcb_table current_proc fun c => { c with cpu_burst := msg.cpu_burst }
    run_queue := s3.run_queue ++ [current_proc] }

/-- One iteration of the `while (tick < SIMULATION_TICKS)` loop (lines 207-301);
`msg` is the content of the message buffer after the `msgrcv` of the handshake. -/
def kernel_tick (cfg : Config) (oob : PageEntry) (s : Kernel) (msg : MsgBuf) : Kernel :=
  let s1 := drain_wait_queue s.wait_queue.length s
  let s2 :=
    match s1.run_queue with
    | [] => s1
    | current_proc :: rest => run_burst cfg oob s1 msg current_proc rest
  let s4 := if s2.tick % 5 = 0 then print_system_status s2 else s2
  { s4 with tick := s4.tick + 1 }

/-- The process dispatched by the next tick: front of the run queue after the
wait queue has been drained. -/
def dispatched (s : Kernel) : Option Int :=
  (drain_wait_queue s.wait_queue.length s).run_queue.head?

/-- State of `run_kernel` after `n` iterations of the tick loop, `replies t`
being the message received in the handshake of iteration `t`. -/
def run_ticks (cfg : Config) (oob : PageEntry) (replies : Nat → MsgBuf) : Nat → Kernel
  | 0 => init cfg
  | n + 1 =>
    let s := run_ticks cfg oob replies n
    if s.tick < cfg.SIMULATION_TICKS then kernel_tick cfg oob s (replies n) else s

/-- Page index produced by `run_child` (line 166) from a value `r` of `rand()`. -/
def child_access_page (r : Nat) : Int := Int.ofNat r % 200

/-- The reply built by `run_child(logic_pid)` (lines 166-170) from its current
`cpu_burst`, its `io_burst` and the values `rands i` of the `rand()` calls. -/
def child_reply (logic_pid : Int) (cpu_burst io_burst : Int) (rands : Nat → Nat) : MsgBuf :=
  { mtype := 999, pid := logic_pid, cpu_burst := cpu_burst, io_burst := io_burst,
    access_pages := fun i => child_access_page (rands i) }

/-- The message type of the grant sent to `current_proc` (line 220), which is
also the type `run_child(logic_pid)` waits for (line 164). -/
def grant_mtype (logical_pid : Int) : Int := logical_pid + 1

/-- The page faults of a run, in order: assigned frame and whether it was
taken by replacement. -/
def fault_log (rs : List AccessResult) : List (Int × Bool) :=
  (rs.filter fun r => !r.hit).map fun r => (r.frame, r.replacement_occurred)

/-- What cyclic assignment gives to the page fault number `k` (counted from 0)
with `T` frames: frame `k mod T`, by replacement when `T ≤ k`. -/
def cyclic_fault (T k : Nat) : Int × Bool := (Int.ofNat (k % T), decide (T ≤ k))

/-- Shape of the two frame lists after `n` page faults: the frames not yet
handed out are free; the FIFO queue is `0 .. n-1` while `n ≤ TOTAL_FRAMES` and
the list of all frames rotated `n` times afterwards. -/
structure CycShape (cfg : Config) (n : Nat) (s : Kernel) : Prop where
  faults : s.total_page_faults = n
  free : s.free_frame_list = ((List.range cfg.TOTAL_FRAMES).drop n).map Int.ofNat
  active : s.active_frames_queue =
    (if n ≤ cfg.TOTAL_FRAMES then List.range n
     else (List.range cfg.TOTAL_FRAMES).rotate n).map Int.ofNat

/-! ## term2: the consistency invariant of the kernel state -/

/-- Consistency of free list, FIFO queue, reverse map and page tables. -/
structure Inv (cfg : Config) (s : Kernel) : Prop where
  frames : (s.active_frames_queue ++ s.free_frame_list).Perm
    ((List.range cfg.TOTAL_FRAMES).map Int.ofNat)
  ft_len : s.frame_table.length = cfg.TOTAL_FRAMES
  pcb_len : s.pcb_table.length = cfg.PROCESS_COUNT
  pcb_wf : ∀ p : Int, 0 ≤ p → p < cfg.PROCESS_COUNT →
    (getI s.pcb_table p PCB.zero).logical_pid = p ∧
    (getI s.pcb_table p PCB.zero).page_table.length = PAGE_TABLE_SIZE
  owner : ∀ f ∈ s.active_frames_queue,
    (0 ≤ (getI s.frame_table f FrameInfo.none).pid ∧
      (getI s.frame_table f FrameInfo.none).pid < cfg.PROCESS_COUNT) ∧
    (0 ≤ (getI s.frame_table f FrameInfo.none).page_idx ∧
      (getI s.frame_table f FrameInfo.none).page_idx < PAGE_TABLE_SIZE) ∧
    (entryOf s (getI s.frame_table f FrameInfo.none).pid
      (getI s.frame_table f FrameInfo.none).page_idx).valid = true ∧
    (entryOf s (getI s.frame_table f FrameInfo.none).pid
      (getI s.frame_table f FrameInfo.none).page_idx).frame_number = f
  unowned : ∀ f ∈ s.free_frame_list, getI s.frame_table f FrameInfo.none = FrameInfo.none
  mapped : ∀ p v : Int, 0 ≤ p → p < cfg.PROCESS_COUNT → 0 ≤ v → v < PAGE_TABLE_SIZE →
    (entryOf s p v).valid = true →
    (entryOf s p v).frame_number ∈ s.active_frames_queue ∧
    getI s.frame_table (entryOf s p v).frame_number FrameInfo.none = ⟨p, v⟩

/-! ## term1: round-robin scheduler -/

/-- Constant `CHILD_COUNT` of term1.cpp. -/
def CHILD_COUNT : Nat := 10

/-- Constant `T_QUANTUM` of term1.cpp. -/
def T_QUANTUM : Int := 3

/-- Constant `SIM_LIMIT` of term1.cpp. -/
def SIM_LIMIT : Int := 10000

/-- The `struct ProcInfo`. -/
structure ProcInfo where
  pid : Int
  cpu_time : Int
  io_time : Int
  is_waiting : Bool
  deriving DecidableEq, Repr

/-- Scheduler state of `main` in term1.cpp: its locals `p_table`, `ready_q`,
`running_pid` and the globals `q_counter`, `sys_tick`. -/
structure Sched where
  p_table : List ProcInfo
  ready_q : List Int
  running_pid : Int
  q_counter : Int
  sys_tick : Int
  deriving DecidableEq, Repr

/-- Function `handle_io_completion` (lines 162-175): one pass over `p_table`. -/
def handle_io_completion : List ProcInfo → List Int → List ProcInfo × List Int
  | [], ready_q => ([], ready_q)
  | p :: ps, ready_q =>
    if p.is_waiting then
      if p.io_time - 1 ≤ 0 then
        let r := handle_io_completion ps (ready_q ++ [p.pid])
        ({ p with is_waiting := false, io_time := 0 } :: r.1, r.2)
      else
        let r := handle_io_completion ps ready_q
        ({ p with io_time := p.io_time - 1 } :: r.1, r.2)
    else
      let r := handle_io_completion ps ready_q
      (p :: r.1, r.2)

/-- The search loop of lines 242-247: index of the first entry of `p_table`
whose pid is `running_pid` (`curr_proc_info`), if any. -/
def find_proc (running_pid : Int) : List ProcInfo → Option Nat
  | [] => none
  | p :: ps =>
    if p.pid = running_pid then some 0
    else (find_proc running_pid ps).map Nat.succ

/-- The process creation loop of `main` (lines 187-200), seen from the parent:
`fork i` is the value returned by the `i`-th `fork()`, `rnd i` the value of the
`rand()` call that follows.  `none` when `main` returns 1. -/
def spawn_children (fork : Nat → Int) (rnd : Nat → Nat) : Nat → Option (List ProcInfo × List Int)
  | 0 => some ([], [])
  | i + 1 =>
    match spawn_children fork rnd i with
    | none => none
    | some (p_table, ready_q) =>
      if 0 < fork i then
        some (p_table ++ [{ pid := fork i, cpu_time := Int.ofNat (rnd i) % 10 + 1,
                            io_time := 0, is_waiting := false }],
              ready_q ++ [fork i])
      else none

/-- Scheduler state when the scheduling loop is entered. -/
def sched_init (fork : Nat → Int) (rnd : Nat → Nat) : Option Sched :=
  (spawn_children fork rnd CHILD_COUNT).map fun r =>
    { p_table := r.1, ready_q := r.2, running_pid := -1, q_counter := 0, sys_tick := 0 }

/-- Step 1 of a timer tick (lines 226-229): `sys_tick++` and
`handle_io_completion(p_table, ready_q)`. -/
def io_phase (s : Sched) : Sched :=
  { s with
    sys_tick := s.sys_tick + 1
    p_table := (handle_io_completion s.p_table s.ready_q).1
    ready_q := (handle_io_completion s.p_table s.ready_q).2 }

/-- Step 2 of a timer tick (lines 232-236): when no process is running and the
ready queue is not empty, its front becomes the running process. -/
def dispatch (s : Sched) : Sched :=
  if s.running_pid = -1 then
    match s.ready_q with
    | [] => s
    | front :: rest => { s with running_pid := front, ready_q := rest, q_counter := T_QUANTUM }
  else s

/-- Step 3 of a timer tick (lines 241-284): the running process executes one
tick.  `command` is `pkt.command` after the `msgrcv` of the handshake and `rnd`
the value of the `rand()` call of the tick, if one is made. -/
def run_process (s : Sched) (command : Int) (rnd : Nat) : Sched :=
  if s.running_pid ≠ -1 then
    match find_proc s.running_pid s.p_table with
    | none => s
    | some i =>
      let curr := s.p_table.getD i ⟨0, 0, 0, false⟩
      let curr1 := { curr with cpu_time := curr.cpu_time - 1 }
      let q := s.q_counter - 1
      if command > 0 then
        -- case 1: I/O request
        { s with
          p_table := s.p_table.set i
            { curr1 with is_waiting := true, io_time := command,
                         cpu_time := Int.ofNat rnd % 10 + 1 }
          q_counter := q
          running_pid := -1 }
      else if q ≤ 0 then
        -- case 2: time quantum expired
        { s with
          p_table := s.p_table.set i curr1
          q_counter := q
          ready_q := s.ready_q ++ [s.running_pid]
          running_pid := -1 }
      else if curr1.cpu_time ≤ 0 then
        -- case 3: CPU burst finished
        { s with
          p_table := s.p_table.set i { curr1 with cpu_time := Int.ofNat rnd % 10 + 1 }
          q_counter := q }
      else
        { s with p_table := s.p_table.set i curr1, q_counter := q }
  else s

/-- One timer tick of the scheduling loop (lines 225-287). -/
def sched_tick (s : Sched) (command : Int) (rnd : Nat) : Sched :=
  run_process (dispatch (io_phase s)) command rnd

/-- The scheduling loop `while (sys_tick < SIM_LIMIT)` over the ticks whose
handshake results are listed in `inputs`. -/
def sched_run (s : Sched) : List (Int × Nat) → Sched
  | [] => s
  | a :: l => if s.sys_tick < SIM_LIMIT then sched_run (sched_tick s a.1 a.2) l else s

/-- Number of the places {running, ready queue, blocked} in which the
process `p` is found, the ready queue counted with multiplicity. -/
def places (s : Sched) (p : ProcInfo) : Nat :=
  (if s.running_pid = p.pid then 1 else 0) + s.ready_q.count p.pid +
    (if p.is_waiting then 1 else 0)

/-- Number of times the PCB `i` is found in the run queue and the wait queue
of the paging kernel (no process is running at a tick boundary). -/
def kernel_places (s : Kernel) (i : Int) : Nat :=
  s.run_queue.count i + s.wait_queue.count i

/-- A blocked process whose I/O ends in this tick. -/
def io_done (p : ProcInfo) : Bool := p.is_waiting && decide (p.io_time - 1 ≤ 0)

/-- What `handle_io_completion` does to one entry of `p_table`. -/
def io_step (p : ProcInfo) : ProcInfo :=
  if p.is_waiting then
    if p.io_time - 1 ≤ 0 then { p with is_waiting := false, io_time := 0 }
    else { p with io_time := p.io_time - 1 }
  else p

/-- Consistency of the scheduler state of term1. -/
structure SchedInv (s : Sched) : Prop where
  pids_nodup : (s.p_table.map ProcInfo.pid).Nodup
  pids_pos : ∀ p ∈ s.p_table, 0 < p.pid
  ready_known : ∀ x ∈ s.ready_q, x ∈ s.p_table.map ProcInfo.pid
  running_known : s.running_pid = -1 ∨ s.running_pid ∈ s.p_table.map ProcInfo.pid
  one_place : ∀ p ∈ s.p_table, places s p = 1

/-! # Theorems -/

/-! ## Lemmas on `int` indexing -/

theorem length_setI {α : Type} (l : List α) (i : Int) (a : α) :
    (setI l i a).length = l.length := by
  unfold setI; split <;> simp

theorem getI_setI {α : Type} (l : List α) (i j : Int) (a d : α) :
    getI (setI l i a) j d =
      if i = j ∧ 0 ≤ i ∧ i < l.length then a else getI l j d := by
  unfold getI setI
  by_cases hi : 0 ≤ i <;> by_cases hj : 0 ≤ j <;> simp only [hi, hj, if_true, if_false]
  · by_cases hij : i = j
    · subst hij
      by_cases hl : i < l.length
      · have : i.toNat < l.length := by omega
        simp [List.getD_eq_getElem?_getD, hl, this]
      · have : l.length ≤ i.toNat := by omega
        rw [List.getD_eq_getElem?_getD, List.getD_eq_getElem?_getD,
          List.getElem?_eq_none (by simpa using this), List.getElem?_eq_none this]
        simp [hl]
    · have : i.toNat ≠ j.toNat := by omega
      simp [List.getD_eq_getElem?_getD, hij, List.getElem?_set_ne this]
  · have : i ≠ j := by omega
    simp [this]
  · simp
  · simp

theorem getI_setI_same {α : Type} (l : List α) (i : Int) (a d : α)
    (h0 : 0 ≤ i) (h1 : i < l.length) : getI (setI l i a) i d = a := by
  rw [getI_setI]; simp [h0, h1]

theorem getI_setI_ne {α : Type} (l : List α) (i j : Int) (a d : α) (h : i ≠ j) :
    getI (setI l i a) j d = getI l j d := by
  rw [getI_setI]; simp [h]

theorem length_updPCB (t : List PCB) (i : Int) (f : PCB → PCB) :
    (updPCB t i f).length = t.length := by
  unfold updPCB; exact length_setI _ _ _

theorem getI_updPCB (t : List PCB) (i j : Int) (f : PCB → PCB) :
    getI (updPCB t i f) j PCB.zero =
      if i = j ∧ 0 ≤ i ∧ i < t.length then f (getI t i PCB.zero) else getI t j PCB.zero := by
  unfold updPCB; exact getI_setI _ _ _ _ _

theorem getI_default_irrel {α : Type} (l : List α) (i : Int) (d d' : α)
    (h0 : 0 ≤ i) (h1 : i < l.length) : getI l i d = getI l i d' := by
  unfold getI
  have : i.toNat < l.length := by omega
  simp [h0, List.getD_eq_getElem?_getD, List.getElem?_eq_getElem this]

/-! ## The three cases of `access` -/

theorem access_hit (oob : PageEntry) (s : Kernel) (p v : Int)
    (h : (getI (getI s.pcb_table p PCB.zero).page_table v oob).valid = true) :
    access oob s p v =
      ({ s with total_access := s.total_access + 1 },
       { hit := true, frame := (getI (getI s.pcb_table p PCB.zero).page_table v oob).frame_number,
         replacement_occurred := false, victim_pid := -1, victim_page := -1 }) := by
  simp [access, h]

theorem access_free (oob : PageEntry) (s : Kernel) (p v f : Int) (rest : List Int)
    (h : (getI (getI s.pcb_table p PCB.zero).page_table v oob).valid = false)
    (hf : s.free_frame_list = f :: rest) :
    access oob s p v =
      ({ s with
          total_access := s.total_access + 1
          total_page_faults := s.total_page_faults + 1
          free_frame_list := rest
          pcb_table := updPCB (updPCB s.pcb_table p PCB.count_fault) p
            fun c => c.map_page v f
          active_frames_queue := s.active_frames_queue ++ [f]
          frame_table := setI s.frame_table f ⟨(getI s.pcb_table p PCB.zero).logical_pid, v⟩ },
       { hit := false, frame := f, replacement_occurred := false,
         victim_pid := -1, victim_page := -1 }) := by
  simp [access, h, hf]

theorem access_evict (oob : PageEntry) (s : Kernel) (p v f : Int) (rest : List Int)
    (h : (getI (getI s.pcb_table p PCB.zero).page_table v oob).valid = false)
    (hf : s.free_frame_list = []) (ha : s.active_frames_queue = f :: rest)
    (hv : (getI s.frame_table f FrameInfo.none).pid ≠ -1) :
    access oob s p v =
      ({ s with
          total_access := s.total_access + 1
          total_page_faults := s.total_page_faults + 1
          total_swap_outs := s.total_swap_outs + 1
          last_victim_frame := f
          pcb_table := updPCB (updPCB (updPCB s.pcb_table p PCB.count_fault)
              (getI s.frame_table f FrameInfo.none).pid
              fun c => c.swap_out (getI s.frame_table f FrameInfo.none).page_idx) p
            fun c => c.map_page v f
          active_frames_queue := rest ++ [f]
          frame_table := setI s.frame_table f ⟨(getI s.pcb_table p PCB.zero).logical_pid, v⟩ },
       { hit := false, frame := f, replacement_occurred := true,
         victim_pid := (getI s.frame_table f FrameInfo.none).pid,
         victim_page := (getI s.frame_table f FrameInfo.none).page_idx }) := by
  simp [access, h, hf, ha, hv]

/-! ## Effect of the updates on the table of PCBs -/

@[simp]
theorem count_fault_page_table (c : PCB) : c.count_fault.page_table = c.page_table := rfl
@[simp]
theorem count_fault_logical_pid (c : PCB) : c.count_fault.logical_pid = c.logical_pid := rfl
@[simp]
theorem count_fault_swap_count (c : PCB) : c.count_fault.swap_count = c.swap_count := rfl
@[simp]
theorem count_fault_count (c : PCB) :
    c.count_fault.page_fault_count = c.page_fault_count + 1 := rfl
@[simp]
theorem map_page_page_table (c : PCB) (v f : Int) :
    (c.map_page v f).page_table = setI c.page_table v ⟨true, false, f⟩ := rfl
@[simp]
theorem map_page_logical_pid (c : PCB) (v f : Int) :
    (c.map_page v f).logical_pid = c.logical_pid := rfl
@[simp]
theorem map_page_swap_count (c : PCB) (v f : Int) :
    (c.map_page v f).swap_count = c.swap_count := rfl
@[simp]
theorem map_page_count (c : PCB) (v f : Int) :
    (c.map_page v f).page_fault_count = c.page_fault_count := rfl
@[simp]
theorem swap_out_page_table (c : PCB) (w : Int) :
    (c.swap_out w).page_table = setI c.page_table w
      { getI c.page_table w PageEntry.initial with valid := false, is_swapped := true } := rfl
@[simp]
theorem swap_out_logical_pid (c : PCB) (w : Int) :
    (c.swap_out w).logical_pid = c.logical_pid := rfl
@[simp]
theorem swap_out_swap_count (c : PCB) (w : Int) :
    (c.swap_out w).swap_count = c.swap_count + 1 := rfl
@[simp]
theorem swap_out_count (c : PCB) (w : Int) :
    (c.swap_out w).page_fault_count = c.page_fault_count := rfl

/-- PCB `j` after a page fault of process `p` on page `v` served from the free list. -/
theorem pcb_after_free (t : List PCB) (p v f j : Int) (hp : 0 ≤ p) (hp' : p < t.length) :
    getI (updPCB (updPCB t p PCB.count_fault) p (fun c => c.map_page v f)) j PCB.zero =
      if j = p then ((getI t p PCB.zero).count_fault).map_page v f else getI t j PCB.zero := by
  by_cases h : j = p
  · subst h; simp [getI_updPCB, length_updPCB, hp, hp']
  · have h' : ¬ p = j := fun e => h e.symm
    simp [getI_updPCB, h, h']

/-- PCB `j` after a page fault of process `p` on page `v` that replaces the
page `w` of process `q`. -/
theorem pcb_after_evict (t : List PCB) (p v f q w j : Int) (hp : 0 ≤ p) (hp' : p < t.length)
    (hq : 0 ≤ q) (hq' : q < t.length) :
    getI (updPCB (updPCB (updPCB t p PCB.count_fault) q (fun c => c.swap_out w)) p
        (fun c => c.map_page v f)) j PCB.zero =
      if j = p then
        (if q = p then ((getI t p PCB.zero).count_fault.swap_out w).map_page v f
         else ((getI t p PCB.zero).count_fault).map_page v f)
      else if j = q then (getI t q PCB.zero).swap_out w
      else getI t j PCB.zero := by
  by_cases h : j = p
  · subst h
    by_cases hqp : q = j
    · subst hqp; simp [getI_updPCB, length_updPCB, hp, hp']
    · have h' : ¬ j = q := fun e => hqp e.symm
      simp [getI_updPCB, length_updPCB, hp, hp', hqp, h']
  · have h' : ¬ p = j := fun e => h e.symm
    by_cases hjq : j = q
    · subst hjq; simp [getI_updPCB, length_updPCB, h, h', hq, hq']
    · have h'' : ¬ q = j := fun e => hjq e.symm
      simp [getI_updPCB, length_updPCB, h, h', hjq, h'']

/-! ## Consequences of the invariant -/

theorem Inv.frame_range {cfg : Config} {s : Kernel} (h : Inv cfg s) {f : Int}
    (hf : f ∈ s.active_frames_queue ++ s.free_frame_list) :
    0 ≤ f ∧ f < cfg.TOTAL_FRAMES := by
  have := (h.frames.mem_iff).1 hf
  simp only [List.mem_map, List.mem_range] at this
  obtain ⟨n, hn, rfl⟩ := this
  constructor
  · exact Int.ofNat_nonneg n
  · exact Int.ofNat_lt.2 hn

theorem Inv.nodup {cfg : Config} {s : Kernel} (h : Inv cfg s) :
    (s.active_frames_queue ++ s.free_frame_list).Nodup := by
  rw [h.frames.nodup_iff]
  exact (List.nodup_range _).map (fun a b hab => Int.ofNat.inj hab)

theorem Inv.length_sum {cfg : Config} {s : Kernel} (h : Inv cfg s) :
    s.active_frames_queue.length + s.free_frame_list.length = cfg.TOTAL_FRAMES := by
  have := h.frames.length_eq
  simpa using this

theorem Inv.read_entry {cfg : Config} {s : Kernel} (h : Inv cfg s) (oob : PageEntry)
    {p v : Int} (hp : 0 ≤ p ∧ p < cfg.PROCESS_COUNT) (hv : 0 ≤ v ∧ v < PAGE_TABLE_SIZE) :
    getI (getI s.pcb_table p PCB.zero).page_table v oob = entryOf s p v := by
  unfold entryOf
  apply getI_default_irrel _ _ _ _ hv.1
  rw [(h.pcb_wf p hp.1 hp.2).2]; exact hv.2

/-- The invariant does not mention the statistics, the tick or the queues of PCBs. -/
theorem Inv.of_eq {cfg : Config} {s s' : Kernel} (h : Inv cfg s)
    (h1 : s'.free_frame_list = s.free_frame_list)
    (h2 : s'.active_frames_queue = s.active_frames_queue)
    (h3 : s'.frame_table = s.frame_table)
    (h4 : ∀ p : Int, (getI s'.pcb_table p PCB.zero).page_table =
      (getI s.pcb_table p PCB.zero).page_table)
    (h5 : ∀ p : Int, (getI s'.pcb_table p PCB.zero).logical_pid =
      (getI s.pcb_table p PCB.zero).logical_pid)
    (h6 : s'.pcb_table.length = s.pcb_table.length) : Inv cfg s' := by
  have he : ∀ p v, entryOf s' p v = entryOf s p v := by
    intro p v; unfold entryOf; rw [h4]
  constructor
  · rw [h1, h2]; exact h.frames
  · rw [h3]; exact h.ft_len
  · rw [h6]; exact h.pcb_len
  · intro p hp hp'; rw [h4, h5]; exact h.pcb_wf p hp hp'
  · intro f hf; rw [h2] at hf; rw [h3]; simp only [he]; exact h.owner f hf
  · intro f hf; rw [h1] at hf; rw [h3]; exact h.unowned f hf
  · intro p v hp hp' hv hv' hval
    rw [he] at hval ⊢; rw [h2, h3]; exact h.mapped p v hp hp' hv hv' hval

theorem init_inv (cfg : Config) : Inv cfg (init cfg) := by
  constructor
  · simp [init]
  · simp [init]
  · simp [init]
  · intro p hp hp'
    obtain ⟨n, rfl⟩ := Int.eq_ofNat_of_zero_le hp
    have hn : n < cfg.PROCESS_COUNT := by exact_mod_cast hp'
    simp [init, getI, List.getD_eq_getElem?_getD, hn]
  · intro f hf; simp [init] at hf
  · intro f hf
    simp only [init, List.mem_map, List.mem_range] at hf
    obtain ⟨n, hn, rfl⟩ := hf
    simp [init, getI, List.getD_eq_getElem?_getD, hn]
  · intro p v hp hp' hv hv' hval
    exfalso
    obtain ⟨n, rfl⟩ := Int.eq_ofNat_of_zero_le hp
    obtain ⟨m, rfl⟩ := Int.eq_ofNat_of_zero_le hv
    have hn : n < cfg.PROCESS_COUNT := by exact_mod_cast hp'
    have hm : m < PAGE_TABLE_SIZE := by exact_mod_cast hv'
    simp [init, entryOf, getI, List.getD_eq_getElem?_getD, hn, hm, PageEntry.initial] at hval

theorem entry_after_free (t : List PCB) (p v f j w : Int) (hp : 0 ≤ p) (hp' : p < t.length)
    (hv : 0 ≤ v) (hv' : v < (getI t p PCB.zero).page_table.length) :
    getI (getI (updPCB (updPCB t p PCB.count_fault) p (fun c => c.map_page v f)) j
        PCB.zero).page_table w PageEntry.initial =
      if j = p ∧ w = v then ⟨true, false, f⟩
      else getI (getI t j PCB.zero).page_table w PageEntry.initial := by
  rw [pcb_after_free t p v f j hp hp']
  by_cases h : j = p
  · subst h
    by_cases hw : w = v
    · subst hw; simp [getI_setI, hv, hv']
    · have hw' : ¬ v = w := fun e => hw e.symm
      simp [getI_setI, hw, hw']
  · simp [h]

theorem entry_after_evict (t : List PCB) (p v f q w0 j w : Int) (hp : 0 ≤ p)
    (hp' : p < t.length) (hq : 0 ≤ q) (hq' : q < t.length)
    (hv : 0 ≤ v) (hv' : v < (getI t p PCB.zero).page_table.length)
    (hw0 : 0 ≤ w0) (hw0' : w0 < (getI t q PCB.zero).page_table.length) :
    getI (getI (updPCB (updPCB (updPCB t p PCB.count_fault) q (fun c => c.swap_out w0)) p
        (fun c => c.map_page v f)) j PCB.zero).page_table w PageEntry.initial =
      if j = p ∧ w = v then ⟨true, false, f⟩
      else if j = q ∧ w = w0 then
        { getI (getI t q PCB.zero).page_table w0 PageEntry.initial with
          valid := false, is_swapped := true }
      else getI (getI t j PCB.zero).page_table w PageEntry.initial := by
  rw [pcb_after_evict t p v f q w0 j hp hp' hq hq']
  by_cases h : j = p
  · subst h
    by_cases hw : w = v
    · subst hw
      by_cases hqj : q = j
      · subst hqj; simp [getI_setI, hv, hv', length_setI]
      · simp [getI_setI, hv, hv', hqj]
    · have hw' : ¬ v = w := fun e => hw e.symm
      by_cases hqj : q = j
      · subst hqj
        by_cases hww : w = w0
        · subst hww; simp [getI_setI, hw, hw', hw0, hw0']
        · have hww' : ¬ w0 = w := fun e => hww e.symm
          simp [getI_setI, hw, hw', hww, hww']
      · have hqj' : ¬ j = q := fun e => hqj e.symm
        simp [getI_setI, hw, hw', hqj, hqj']
  · by_cases hjq : j = q
    · subst hjq
      by_cases hww : w = w0
      · subst hww; simp [getI_setI, h, hw0, hw0']
      · have hww' : ¬ w0 = w := fun e => hww e.symm
        simp [getI_setI, h, hww, hww']
    · simp [h, hjq]

/-! ## The invariant is preserved by every in-range access -/

theorem inv_access_free {cfg : Config} {s : Kernel} (h : Inv cfg s) (oob : PageEntry)
    {p v f : Int} {rest : List Int}
    (hp : 0 ≤ p ∧ p < cfg.PROCESS_COUNT) (hv : 0 ≤ v ∧ v < PAGE_TABLE_SIZE)
    (hval : (entryOf s p v).valid = false) (hf : s.free_frame_list = f :: rest) :
    Inv cfg (access oob s p v).1 := by
  rw [access_free oob s p v f rest (by rw [h.read_entry oob hp hv]; exact hval) hf]
  have hlen : (p : Int) < s.pcb_table.length := by rw [h.pcb_len]; exact hp.2
  have hptl : v < (getI s.pcb_table p PCB.zero).page_table.length := by
    rw [(h.pcb_wf p hp.1 hp.2).2]; exact hv.2
  have hfr : 0 ≤ f ∧ f < cfg.TOTAL_FRAMES := h.frame_range (by simp [hf])
  have hnd := h.nodup
  rw [hf] at hnd
  have hfa : f ∉ s.active_frames_queue := by
    intro hmem
    exact (List.nodup_append.1 hnd).2.2 hmem (by simp)
  have hfrest : f ∉ rest := by
    have := (List.nodup_append.1 hnd).2.1
    exact (List.nodup_cons.1 this).1
  have he : ∀ j w, entryOf
      { s with
          total_access := s.total_access + 1
          total_page_faults := s.total_page_faults + 1
          free_frame_list := rest
          pcb_table := updPCB (updPCB s.pcb_table p PCB.count_fault) p
            fun c => c.map_page v f
          active_frames_queue := s.active_frames_queue ++ [f]
          frame_table := setI s.frame_table f ⟨(getI s.pcb_table p PCB.zero).logical_pid, v⟩ }
      j w = if j = p ∧ w = v then ⟨true, false, f⟩ else entryOf s j w :=
    fun j w => entry_after_free s.pcb_table p v f j w hp.1 hlen hv.1 hptl
  have hft : ∀ g, getI (setI s.frame_table f
      ⟨(getI s.pcb_table p PCB.zero).logical_pid, v⟩) g FrameInfo.none =
      if f = g then ⟨p, v⟩ else getI s.frame_table g FrameInfo.none := by
    intro g
    rw [getI_setI, (h.pcb_wf p hp.1 hp.2).1, h.ft_len]
    simp [hfr.1, hfr.2]
  constructor
  · have := h.frames
    rw [hf] at this
    simpa using this
  · simp [length_setI, h.ft_len]
  · simp [length_updPCB, h.pcb_len]
  · intro j hj hj'
    simp only [pcb_after_free s.pcb_table p v f j hp.1 hlen]
    by_cases hjp : j = p
    · subst hjp
      simp [length_setI, h.pcb_wf j hj hj']
    · simp [hjp, h.pcb_wf j hj hj']
  · intro g hg
    simp only [hft, he]
    simp only [List.mem_append, List.mem_singleton] at hg
    by_cases hfg : f = g
    · subst hfg
      simp [hp.1, hp.2, hv.1, hv.2]
    · have hga : g ∈ s.active_frames_queue := by
        rcases hg with hg | hg
        · exact hg
        · exact absurd hg.symm hfg
      have ho := h.owner g hga
      simp only [hfg, if_false]
      have hne : ¬ ((getI s.frame_table g FrameInfo.none).pid = p ∧
          (getI s.frame_table g FrameInfo.none).page_idx = v) := by
        rintro ⟨e1, e2⟩
        rw [e1, e2, hval] at ho
        exact absurd ho.2.2.1 (by simp)
      simp only [hne, if_false]
      exact ho
  · intro g hg
    simp only [hft]
    have hfg : ¬ f = g := by
      rintro rfl; exact hfrest hg
    simp only [hfg, if_false]
    exact h.unowned g (by rw [hf]; exact List.mem_cons_of_mem _ hg)
  · intro j w hj hj' hw hw' hjw
    simp only [he] at hjw ⊢
    simp only [hft]
    by_cases hc : j = p ∧ w = v
    · obtain ⟨rfl, rfl⟩ := hc
      simp
    · simp only [hc, if_false] at hjw ⊢
      have hm := h.mapped j w hj hj' hw hw' hjw
      have hfg : ¬ f = (entryOf s j w).frame_number := by
        intro e; rw [← e] at hm; exact hfa hm.1
      simp only [hfg, if_false]
      exact ⟨List.mem_append_left _ hm.1, hm.2⟩

/-- With at least one frame, an empty free list leaves a non-empty FIFO queue. -/
theorem Inv.active_ne_nil {cfg : Config} {s : Kernel} (h : Inv cfg s)
    (hT : 0 < cfg.TOTAL_FRAMES) (hf : s.free_frame_list = []) :
    ∃ f rest, s.active_frames_queue = f :: rest := by
  have hl := h.length_sum
  rw [hf] at hl
  cases ha : s.active_frames_queue with
  | nil => rw [ha] at hl; simp at hl; omega
  | cons f rest => exact ⟨f, rest, rfl⟩

theorem inv_access_evict {cfg : Config} {s : Kernel} (h : Inv cfg s) (oob : PageEntry)
    {p v f : Int} {rest : List Int}
    (hp : 0 ≤ p ∧ p < cfg.PROCESS_COUNT) (hv : 0 ≤ v ∧ v < PAGE_TABLE_SIZE)
    (hval : (entryOf s p v).valid = false) (hf : s.free_frame_list = [])
    (ha : s.active_frames_queue = f :: rest) :
    Inv cfg (access oob s p v).1 := by
  have hfmem : f ∈ s.active_frames_queue := by rw [ha]; simp
  have ho := h.owner f hfmem
  have hvp : (getI s.frame_table f FrameInfo.none).pid ≠ -1 := by
    have := ho.1.1; omega
  rw [access_evict oob s p v f rest (by rw [h.read_entry oob hp hv]; exact hval) hf ha hvp]
  have hlen : (p : Int) < s.pcb_table.length := by rw [h.pcb_len]; exact hp.2
  have hqlen : (getI s.frame_table f FrameInfo.none).pid < s.pcb_table.length := by
    rw [h.pcb_len]; exact ho.1.2
  have hptl : v < (getI s.pcb_table p PCB.zero).page_table.length := by
    rw [(h.pcb_wf p hp.1 hp.2).2]; exact hv.2
  have hqtl : (getI s.frame_table f FrameInfo.none).page_idx <
      (getI s.pcb_table (getI s.frame_table f FrameInfo.none).pid PCB.zero).page_table.length := by
    rw [(h.pcb_wf _ ho.1.1 ho.1.2).2]; exact ho.2.1.2
  have hfr : 0 ≤ f ∧ f < cfg.TOTAL_FRAMES := h.frame_range (by simp [ha])
  have hnd := h.nodup
  rw [hf, ha, List.append_nil] at hnd
  have hfrest : f ∉ rest := (List.nodup_cons.1 hnd).1
  have he : ∀ j w, entryOf
      { s with
          total_access := s.total_access + 1
          total_page_faults := s.total_page_faults + 1
          total_swap_outs := s.total_swap_outs + 1
          last_victim_frame := f
          pcb_table := updPCB (updPCB (updPCB s.pcb_table p PCB.count_fault)
              (getI s.frame_table f FrameInfo.none).pid
              fun c => c.swap_out (getI s.frame_table f FrameInfo.none).page_idx) p
            fun c => c.map_page v f
          active_frames_queue := rest ++ [f]
          frame_table := setI s.frame_table f ⟨(getI s.pcb_table p PCB.zero).logical_pid, v⟩ }
      j w = if j = p ∧ w = v then ⟨true, false, f⟩
        else if j = (getI s.frame_table f FrameInfo.none).pid ∧
            w = (getI s.frame_table f FrameInfo.none).page_idx then
          { entryOf s (getI s.frame_table f FrameInfo.none).pid
              (getI s.frame_table f FrameInfo.none).page_idx with
            valid := false, is_swapped := true }
        else entryOf s j w :=
    fun j w => entry_after_evict s.pcb_table p v f _ _ j w hp.1 hlen ho.1.1 hqlen hv.1 hptl
      ho.2.1.1 hqtl
  have hft : ∀ g, getI (setI s.frame_table f
      ⟨(getI s.pcb_table p PCB.zero).logical_pid, v⟩) g FrameInfo.none =
      if f = g then ⟨p, v⟩ else getI s.frame_table g FrameInfo.none := by
    intro g
    rw [getI_setI, (h.pcb_wf p hp.1 hp.2).1, h.ft_len]
    simp [hfr.1, hfr.2]
  constructor
  · have := h.frames
    rw [hf, ha] at this
    show (rest ++ [f] ++ s.free_frame_list).Perm _
    rw [hf]
    simp only [List.append_nil] at this ⊢
    exact (@List.perm_append_comm _ rest [f]).trans this
  · simp [length_setI, h.ft_len]
  · simp [length_updPCB, h.pcb_len]
  · intro j hj hj'
    simp only [pcb_after_evict s.pcb_table p v f _ _ j hp.1 hlen ho.1.1 hqlen]
    by_cases hjp : j = p
    · subst hjp
      by_cases hqj : (getI s.frame_table f FrameInfo.none).pid = j
      · simp [hqj, length_setI, h.pcb_wf j hj hj']
      · simp [hqj, length_setI, h.pcb_wf j hj hj']
    · by_cases hjq : j = (getI s.frame_table f FrameInfo.none).pid
      · rw [if_neg hjp, if_pos hjq]
        have hw := h.pcb_wf _ ho.1.1 ho.1.2
        simp [length_setI, hw.2]
        rw [hw.1]; exact hjq.symm
      · simp [hjp, hjq, h.pcb_wf j hj hj']
  · intro g hg
    simp only [hft, he]
    simp only [List.mem_append, List.mem_singleton] at hg
    by_cases hfg : f = g
    · subst hfg
      simp [hp.1, hp.2, hv.1, hv.2]
    · have hgr : g ∈ rest := by
        rcases hg with hg | hg
        · exact hg
        · exact absurd hg.symm hfg
      have hog := h.owner g (by rw [ha]; exact List.mem_cons_of_mem _ hgr)
      simp only [hfg, if_false]
      have hne : ¬ ((getI s.frame_table g FrameInfo.none).pid = p ∧
          (getI s.frame_table g FrameInfo.none).page_idx = v) := by
        rintro ⟨e1, e2⟩
        rw [e1, e2, hval] at hog
        exact absurd hog.2.2.1 (by simp)
      have hne2 : ¬ ((getI s.frame_table g FrameInfo.none).pid =
            (getI s.frame_table f FrameInfo.none).pid ∧
          (getI s.frame_table g FrameInfo.none).page_idx =
            (getI s.frame_table f FrameInfo.none).page_idx) := by
        rintro ⟨e1, e2⟩
        rw [e1, e2, ho.2.2.2] at hog
        exact hfg hog.2.2.2
      simp only [hne, hne2, if_false]
      exact hog
  · intro g hg
    have hg' : g ∈ s.free_frame_list := hg
    rw [hf] at hg'
    simp at hg'
  · intro j w hj hj' hw hw' hjw
    simp only [he] at hjw ⊢
    simp only [hft]
    by_cases hc : j = p ∧ w = v
    · obtain ⟨rfl, rfl⟩ := hc
      simp
    · simp only [hc, if_false] at hjw ⊢
      by_cases hc2 : j = (getI s.frame_table f FrameInfo.none).pid ∧
          w = (getI s.frame_table f FrameInfo.none).page_idx
      · simp [hc2] at hjw
      · simp only [hc2, if_false] at hjw ⊢
        have hm := h.mapped j w hj hj' hw hw' hjw
        have hfg : ¬ f = (entryOf s j w).frame_number := by
          intro e
          rw [← e] at hm
          apply hc2
          rw [hm.2]
          exact ⟨rfl, rfl⟩
        simp only [hfg, if_false]
        refine ⟨List.mem_append_left _ ?_, hm.2⟩
        have := hm.1
        rw [ha] at this
        rcases List.mem_cons.1 this with e | e
        · exact absurd e.symm hfg
        · exact e

/-- Every in-range access preserves the invariant. -/
theorem inv_access {cfg : Config} {s : Kernel} (h : Inv cfg s) (hT : 0 < cfg.TOTAL_FRAMES)
    (oob : PageEntry) {p v : Int}
    (hp : 0 ≤ p ∧ p < cfg.PROCESS_COUNT) (hv : 0 ≤ v ∧ v < PAGE_TABLE_SIZE) :
    Inv cfg (access oob s p v).1 := by
  cases hval : (entryOf s p v).valid with
  | true =>
    rw [access_hit oob s p v (by rw [h.read_entry oob hp hv]; exact hval)]
    exact h.of_eq rfl rfl rfl (fun _ => rfl) (fun _ => rfl) rfl
  | false =>
    cases hf : s.free_frame_list with
    | cons f rest => exact inv_access_free h oob hp hv hval hf
    | nil =>
      obtain ⟨f, rest, ha⟩ := h.active_ne_nil hT hf
      exact inv_access_evict h oob hp hv hval hf ha

theorem inv_run_accesses {cfg : Config} (hT : 0 < cfg.TOTAL_FRAMES) (oob : PageEntry)
    (l : List (Int × Int)) : ∀ {s : Kernel}, Inv cfg s → InRange cfg l →
    Inv cfg (run_accesses oob s l) := by
  induction l with
  | nil => intro s h _; exact h
  | cons a l ih =>
    intro s h hr
    have ha := hr a (List.mem_cons_self _ _)
    exact ih (inv_access h hT oob ha.1 ha.2) (fun b hb => hr b (List.mem_cons_of_mem _ hb))

/-! ## C1, C2: consistency of the reverse map and of the two frame lists -/

/-- C1: in every state reached from initialisation by in-range accesses, every
frame of `active_frames_queue` has an owner `(p, v)` in `frame_table` with
`p != -1` whose page-table entry `v` is valid and points back to the frame, and
every frame outside `active_frames_queue` has `frame_table[f].pid = -1`. -/
theorem frame_table_consistent (cfg : Config) (hT : 0 < cfg.TOTAL_FRAMES) (oob : PageEntry)
    (l : List (Int × Int)) (hl : InRange cfg l) :
    (∀ f ∈ (run_accesses oob (init cfg) l).active_frames_queue,
      (getI (run_accesses oob (init cfg) l).frame_table f FrameInfo.none).pid ≠ -1 ∧
      (entryOf (run_accesses oob (init cfg) l)
        (getI (run_accesses oob (init cfg) l).frame_table f FrameInfo.none).pid
        (getI (run_accesses oob (init cfg) l).frame_table f FrameInfo.none).page_idx).valid
          = true ∧
      (entryOf (run_accesses oob (init cfg) l)
        (getI (run_accesses oob (init cfg) l).frame_table f FrameInfo.none).pid
        (getI (run_accesses oob (init cfg) l).frame_table f FrameInfo.none).page_idx).frame_number
          = f) ∧
    (∀ f : Int, 0 ≤ f → f < cfg.TOTAL_FRAMES →
      f ∉ (run_accesses oob (init cfg) l).active_frames_queue →
      (getI (run_accesses oob (init cfg) l).frame_table f FrameInfo.none).pid = -1) := by
  have h := inv_run_accesses hT oob l (init_inv cfg) hl
  constructor
  · intro f hf
    have ho := h.owner f hf
    refine ⟨?_, ho.2.2.1, ho.2.2.2⟩
    have := ho.1.1
    omega
  · intro f h0 h1 hna
    obtain ⟨n, rfl⟩ := Int.eq_ofNat_of_zero_le h0
    have hn : n < cfg.TOTAL_FRAMES := by exact_mod_cast h1
    have hmem : (Int.ofNat n) ∈ (run_accesses oob (init cfg) l).active_frames_queue ++
        (run_accesses oob (init cfg) l).free_frame_list := by
      rw [h.frames.mem_iff]
      exact List.mem_map.2 ⟨n, List.mem_range.2 hn, rfl⟩
    rcases List.mem_append.1 hmem with hm | hm
    · exact absurd hm hna
    · exact congrArg FrameInfo.pid (h.unowned _ hm)

/-- C1 at the run 0:0, 0:1, 0:2 with two frames: frame 1 then frame 0 are active. -/
theorem frame_table_consistent_witness :
    InRange two_frames [(0, 0), (0, 1), (0, 2)] ∧
    (∀ f ∈ (run_accesses PageEntry.initial (init two_frames)
        [(0, 0), (0, 1), (0, 2)]).active_frames_queue,
      (getI (run_accesses PageEntry.initial (init two_frames)
        [(0, 0), (0, 1), (0, 2)]).frame_table f FrameInfo.none).pid ≠ -1) :=
  ⟨by decide,
   fun f hf => ((frame_table_consistent two_frames (by decide)
     PageEntry.initial [(0, 0), (0, 1), (0, 2)] (by decide)).1 f hf).1⟩

/-- C2: with at least one frame, in every state reached from initialisation by
in-range accesses the free list and the FIFO queue together hold
`TOTAL_FRAMES` frames, the FIFO queue has no duplicate, and no frame is in
both lists. -/
theorem frame_lists_partition (cfg : Config) (hT : 0 < cfg.TOTAL_FRAMES) (oob : PageEntry)
    (l : List (Int × Int)) (hl : InRange cfg l) :
    (run_accesses oob (init cfg) l).free_frame_list.length +
        (run_accesses oob (init cfg) l).active_frames_queue.length = cfg.TOTAL_FRAMES ∧
    (run_accesses oob (init cfg) l).active_frames_queue.Nodup ∧
    (∀ f : Int, ¬ (f ∈ (run_accesses oob (init cfg) l).free_frame_list ∧
      f ∈ (run_accesses oob (init cfg) l).active_frames_queue)) := by
  have h := inv_run_accesses hT oob l (init_inv cfg) hl
  have hnd := List.nodup_append.1 h.nodup
  refine ⟨?_, hnd.1, ?_⟩
  · have := h.length_sum; omega
  · rintro f ⟨hf, ha⟩
    exact hnd.2.2 ha hf

/-- C2 at the run 0:0, 0:1, 0:2, 1:5 with two frames. -/
theorem frame_lists_partition_witness :
    (0 < two_frames.TOTAL_FRAMES ∧
      InRange two_frames [(0, 0), (0, 1), (0, 2), (1, 5)]) ∧
    (run_accesses PageEntry.initial (init two_frames)
      [(0, 0), (0, 1), (0, 2), (1, 5)]).active_frames_queue.Nodup :=
  ⟨⟨by decide, by decide⟩,
   (frame_lists_partition two_frames (by decide)
     PageEntry.initial [(0, 0), (0, 1), (0, 2), (1, 5)] (by decide)).2.1⟩

/-! ## C4: hits -/

theorem Reachable.inv {cfg : Config} {oob : PageEntry} {s : Kernel}
    (hs : Reachable cfg oob s) (hT : 0 < cfg.TOTAL_FRAMES) : Inv cfg s := by
  obtain ⟨l, hl, rfl⟩ := hs
  exact inv_run_accesses hT oob l (init_inv cfg) hl

theorem run_accesses_cons (oob : PageEntry) (s : Kernel) (a : Int × Int) (l : List (Int × Int)) :
    run_accesses oob s (a :: l) = run_accesses oob (access oob s a.1 a.2).1 l := rfl

theorem run_accesses_append (oob : PageEntry) (s : Kernel) (l l' : List (Int × Int)) :
    run_accesses oob s (l ++ l') = run_accesses oob (run_accesses oob s l) l' := by
  unfold run_accesses; exact List.foldl_append _ _ _ _

/-- Any number of accesses to a valid page are hits on the stored frame and
only advance `total_access`. -/
theorem hits_replicate (oob : PageEntry) (p v : Int) (n : Nat) : ∀ (s : Kernel),
    (getI (getI s.pcb_table p PCB.zero).page_table v oob).valid = true →
    run_accesses oob s (List.replicate n (p, v)) =
      { s with total_access := s.total_access + n } ∧
    access_results oob s (List.replicate n (p, v)) =
      List.replicate n (AccessResult.hit_on
        (getI (getI s.pcb_table p PCB.zero).page_table v oob).frame_number) := by
  induction n with
  | zero => intro s _; simp [run_accesses, access_results]
  | succ n ih =>
    intro s h
    have hs := access_hit oob s p v h
    have ih' := ih { s with total_access := s.total_access + 1 } h
    constructor
    · rw [List.replicate_succ, run_accesses_cons]
      simp only [hs]
      rw [ih'.1]
      simp only [Nat.cast_add, Nat.cast_one]
      congr 1
      ring
    · rw [List.replicate_succ, access_results]
      simp only [hs]
      rw [ih'.2]
      simp [List.replicate_succ, AccessResult.hit_on]

/-- C4: in a reachable state an access by process `p` to a page `v` whose
entry is valid is a hit reporting the stored `frame_number`; it changes
nothing but `total_access` (frame table, both frame lists, all page tables and
all fault and swap counters are those of the state before), and so do any
number of repeated accesses, which all report the same frame. -/
theorem hit_idempotent (cfg : Config) (hT : 0 < cfg.TOTAL_FRAMES) (oob : PageEntry)
    (s : Kernel) (hs : Reachable cfg oob s) (p v : Int)
    (hp : 0 ≤ p ∧ p < cfg.PROCESS_COUNT) (hv : 0 ≤ v ∧ v < PAGE_TABLE_SIZE)
    (hval : (entryOf s p v).valid = true) :
    access oob s p v =
      ({ s with total_access := s.total_access + 1 },
       AccessResult.hit_on (entryOf s p v).frame_number) ∧
    ∀ n : Nat,
      run_accesses oob s (List.replicate n (p, v)) =
        { s with total_access := s.total_access + n } ∧
      access_results oob s (List.replicate n (p, v)) =
        List.replicate n (AccessResult.hit_on (entryOf s p v).frame_number) := by
  have h := hs.inv hT
  have he := h.read_entry oob hp hv
  have hval' : (getI (getI s.pcb_table p PCB.zero).page_table v oob).valid = true := by
    rw [he]; exact hval
  constructor
  · rw [access_hit oob s p v hval', he]; rfl
  · intro n
    have := hits_replicate oob p v n s hval'
    rw [he] at this
    exact this

/-- C4 after the accesses 0:0, 0:1 with two frames: page 1 of process 0 is in frame 1. -/
theorem hit_idempotent_witness :
    (0 < two_frames.TOTAL_FRAMES ∧
      Reachable two_frames PageEntry.initial
        (run_accesses PageEntry.initial (init two_frames) [(0, 0), (0, 1)]) ∧
      (entryOf (run_accesses PageEntry.initial (init two_frames) [(0, 0), (0, 1)]) 0 1).valid
        = true) ∧
    access PageEntry.initial (run_accesses PageEntry.initial (init two_frames) [(0, 0), (0, 1)])
        0 1 =
      ({ run_accesses PageEntry.initial (init two_frames) [(0, 0), (0, 1)] with
          total_access :=
            (run_accesses PageEntry.initial (init two_frames) [(0, 0), (0, 1)]).total_access + 1 },
       AccessResult.hit_on 1) :=
  ⟨⟨by decide, ⟨[(0, 0), (0, 1)], by decide, rfl⟩, by decide⟩,
   (hit_idempotent two_frames (by decide) PageEntry.initial _
     ⟨[(0, 0), (0, 1)], by decide, rfl⟩ 0 1 (by decide) (by decide) (by decide)).1⟩

/-! ## C5: the eviction step -/

/-- Page-table entries and reverse map after a page fault that replaces the
frame at the front of the FIFO queue. -/
theorem access_evict_effect {cfg : Config} {s : Kernel} (h : Inv cfg s) (oob : PageEntry)
    {p v f : Int} {rest : List Int}
    (hp : 0 ≤ p ∧ p < cfg.PROCESS_COUNT) (hv : 0 ≤ v ∧ v < PAGE_TABLE_SIZE)
    (hval : (entryOf s p v).valid = false) (hf : s.free_frame_list = [])
    (ha : s.active_frames_queue = f :: rest) :
    (access oob s p v).2 =
      { hit := false, frame := f, replacement_occurred := true,
        victim_pid := (getI s.frame_table f FrameInfo.none).pid,
        victim_page := (getI s.frame_table f FrameInfo.none).page_idx } ∧
    (access oob s p v).1.active_frames_queue = rest ++ [f] ∧
    (access oob s p v).1.free_frame_list = [] ∧
    (∀ j w, entryOf (access oob s p v).1 j w =
      if j = p ∧ w = v then ⟨true, false, f⟩
      else if j = (getI s.frame_table f FrameInfo.none).pid ∧
          w = (getI s.frame_table f FrameInfo.none).page_idx then
        { entryOf s (getI s.frame_table f FrameInfo.none).pid
            (getI s.frame_table f FrameInfo.none).page_idx with
          valid := false, is_swapped := true }
      else entryOf s j w) ∧
    (∀ g, getI (access oob s p v).1.frame_table g FrameInfo.none =
      if f = g then ⟨p, v⟩ else getI s.frame_table g FrameInfo.none) := by
  have hfmem : f ∈ s.active_frames_queue := by rw [ha]; simp
  have ho := h.owner f hfmem
  have hvp : (getI s.frame_table f FrameInfo.none).pid ≠ -1 := by
    have := ho.1.1; omega
  rw [access_evict oob s p v f rest (by rw [h.read_entry oob hp hv]; exact hval) hf ha hvp]
  have hlen : (p : Int) < s.pcb_table.length := by rw [h.pcb_len]; exact hp.2
  have hqlen : (getI s.frame_table f FrameInfo.none).pid < s.pcb_table.length := by
    rw [h.pcb_len]; exact ho.1.2
  have hptl : v < (getI s.pcb_table p PCB.zero).page_table.length := by
    rw [(h.pcb_wf p hp.1 hp.2).2]; exact hv.2
  have hqtl : (getI s.frame_table f FrameInfo.none).page_idx <
      (getI s.pcb_table (getI s.frame_table f FrameInfo.none).pid PCB.zero).page_table.length := by
    rw [(h.pcb_wf _ ho.1.1 ho.1.2).2]; exact ho.2.1.2
  have hfr : 0 ≤ f ∧ f < cfg.TOTAL_FRAMES := h.frame_range (by simp [ha])
  refine ⟨rfl, rfl, hf, ?_, ?_⟩
  · exact fun j w => entry_after_evict s.pcb_table p v f _ _ j w hp.1 hlen ho.1.1 hqlen hv.1 hptl
      ho.2.1.1 hqtl
  · intro g
    show getI (setI s.frame_table f ⟨(getI s.pcb_table p PCB.zero).logical_pid, v⟩) g
      FrameInfo.none = _
    rw [getI_setI, (h.pcb_wf p hp.1 hp.2).1, h.ft_len]
    simp [hfr.1, hfr.2]

/-- C5: in a reachable state with an empty free list, a fault of process `p`
on the in-range page `v` takes the frame `f` at the front of
`active_frames_queue` and appends it to the back; the entry of the recorded
owner `(q, w)` of `f` becomes invalid and swapped, the entry `v` of `p` becomes
`{valid, not swapped, frame f}`, `frame_table[f]` becomes `(p, v)`, and no other
page-table entry and no other `frame_table` slot changes. -/
theorem eviction_step (cfg : Config) (hT : 0 < cfg.TOTAL_FRAMES) (oob : PageEntry)
    (s : Kernel) (hs : Reachable cfg oob s) (p v : Int)
    (hp : 0 ≤ p ∧ p < cfg.PROCESS_COUNT) (hv : 0 ≤ v ∧ v < PAGE_TABLE_SIZE)
    (hval : (entryOf s p v).valid = false) (hfree : s.free_frame_list = []) :
    ∃ f rest q w,
      s.active_frames_queue = f :: rest ∧
      getI s.frame_table f FrameInfo.none = ⟨q, w⟩ ∧
      (0 ≤ q ∧ q < cfg.PROCESS_COUNT) ∧ (0 ≤ w ∧ w < PAGE_TABLE_SIZE) ∧
      (access oob s p v).2 =
        { hit := false, frame := f, replacement_occurred := true,
          victim_pid := q, victim_page := w } ∧
      (access oob s p v).1.active_frames_queue = rest ++ [f] ∧
      (access oob s p v).1.free_frame_list = [] ∧
      (entryOf (access oob s p v).1 q w).valid = false ∧
      (entryOf (access oob s p v).1 q w).is_swapped = true ∧
      entryOf (access oob s p v).1 p v = ⟨true, false, f⟩ ∧
      getI (access oob s p v).1.frame_table f FrameInfo.none = ⟨p, v⟩ ∧
      (∀ j u : Int, ¬ (j = q ∧ u = w) → ¬ (j = p ∧ u = v) →
        entryOf (access oob s p v).1 j u = entryOf s j u) ∧
      (∀ g : Int, g ≠ f →
        getI (access oob s p v).1.frame_table g FrameInfo.none =
          getI s.frame_table g FrameInfo.none) ∧
      (access oob s p v).1.frame_table.length = s.frame_table.length := by
  have h := hs.inv hT
  obtain ⟨f, rest, ha⟩ := h.active_ne_nil hT hfree
  have hfmem : f ∈ s.active_frames_queue := by rw [ha]; simp
  have ho := h.owner f hfmem
  obtain ⟨hr, hq, hfl, he, hft⟩ := access_evict_effect h oob hp hv hval hfree ha
  have hne : ¬ ((getI s.frame_table f FrameInfo.none).pid = p ∧
      (getI s.frame_table f FrameInfo.none).page_idx = v) := by
    rintro ⟨e1, e2⟩
    rw [e1, e2, hval] at ho
    exact absurd ho.2.2.1 (by simp)
  refine ⟨f, rest, (getI s.frame_table f FrameInfo.none).pid,
    (getI s.frame_table f FrameInfo.none).page_idx, ha, rfl, ho.1, ho.2.1, hr, hq, hfl,
    ?_, ?_, ?_, ?_, ?_, ?_, ?_⟩
  · rw [he, if_neg hne]; simp
  · rw [he, if_neg hne]; simp
  · rw [he]; simp
  · rw [hft]; simp
  · intro j u h1 h2
    rw [he, if_neg h2, if_neg h1]
  · intro g hg
    rw [hft, if_neg (fun e => hg e.symm)]
  · have h' := inv_access h hT oob hp hv
    rw [h'.ft_len, h.ft_len]

/-- C5 after the accesses 0:0, 0:1 with two frames: the fault of process 1 on
page 5 replaces frame 0. -/
theorem eviction_step_witness :
    (0 < two_frames.TOTAL_FRAMES ∧
      Reachable two_frames PageEntry.initial
        (run_accesses PageEntry.initial (init two_frames) [(0, 0), (0, 1)]) ∧
      (entryOf (run_accesses PageEntry.initial (init two_frames) [(0, 0), (0, 1)]) 1 5).valid
        = false ∧
      (run_accesses PageEntry.initial (init two_frames) [(0, 0), (0, 1)]).free_frame_list = []) ∧
    ∃ f rest q w,
      (run_accesses PageEntry.initial (init two_frames) [(0, 0), (0, 1)]).active_frames_queue
        = f :: rest ∧
      getI (run_accesses PageEntry.initial (init two_frames) [(0, 0), (0, 1)]).frame_table f
        FrameInfo.none = ⟨q, w⟩ ∧
      (access PageEntry.initial
        (run_accesses PageEntry.initial (init two_frames) [(0, 0), (0, 1)]) 1 5).1.active_frames_queue
        = rest ++ [f] :=
  ⟨⟨by decide, ⟨[(0, 0), (0, 1)], by decide, rfl⟩, by decide, by decide⟩,
   let ⟨f, rest, q, w, h1, h2, _, _, _, h6, _⟩ :=
     eviction_step two_frames (by decide) PageEntry.initial _
       ⟨[(0, 0), (0, 1)], by decide, rfl⟩ 1 5 (by decide) (by decide) (by decide) (by decide)
   ⟨f, rest, q, w, h1, h2, h6⟩⟩

/-! ## C6: counters -/

/-- Counters after a hit. -/
theorem counters_hit {cfg : Config} {s : Kernel} (h : Inv cfg s) (oob : PageEntry) {p v : Int}
    (hp : 0 ≤ p ∧ p < cfg.PROCESS_COUNT) (hv : 0 ≤ v ∧ v < PAGE_TABLE_SIZE)
    (hval : (entryOf s p v).valid = true) :
    (access oob s p v).2.replacement_occurred = false ∧
    (access oob s p v).1.total_access = s.total_access + 1 ∧
    (access oob s p v).1.total_page_faults = s.total_page_faults ∧
    (access oob s p v).1.total_swap_outs = s.total_swap_outs ∧
    (∀ j, fault_count (access oob s p v).1 j = fault_count s j) ∧
    (∀ j, swaps (access oob s p v).1 j = swaps s j) := by
  rw [access_hit oob s p v (by rw [h.read_entry oob hp hv]; exact hval)]
  exact ⟨rfl, rfl, rfl, rfl, fun _ => rfl, fun _ => rfl⟩

/-- Counters after a page fault served from the free list. -/
theorem counters_free {cfg : Config} {s : Kernel} (h : Inv cfg s) (oob : PageEntry)
    {p v f : Int} {rest : List Int}
    (hp : 0 ≤ p ∧ p < cfg.PROCESS_COUNT) (hv : 0 ≤ v ∧ v < PAGE_TABLE_SIZE)
    (hval : (entryOf s p v).valid = false) (hf : s.free_frame_list = f :: rest) :
    (access oob s p v).2.replacement_occurred = false ∧
    (access oob s p v).1.total_access = s.total_access + 1 ∧
    (access oob s p v).1.total_page_faults = s.total_page_faults + 1 ∧
    (access oob s p v).1.total_swap_outs = s.total_swap_outs ∧
    (∀ j, fault_count (access oob s p v).1 j =
      if j = p then fault_count s j + 1 else fault_count s j) ∧
    (∀ j, swaps (access oob s p v).1 j = swaps s j) := by
  rw [access_free oob s p v f rest (by rw [h.read_entry oob hp hv]; exact hval) hf]
  have hlen : (p : Int) < s.pcb_table.length := by rw [h.pcb_len]; exact hp.2
  refine ⟨rfl, rfl, rfl, rfl, ?_, ?_⟩
  · intro j
    show (getI (updPCB (updPCB s.pcb_table p PCB.count_fault) p
      (fun c => c.map_page v f)) j PCB.zero).page_fault_count = _
    rw [pcb_after_free s.pcb_table p v f j hp.1 hlen]
    by_cases hj : j = p
    · subst hj; simp [fault_count]
    · simp [hj, fault_count]
  · intro j
    show (getI (updPCB (updPCB s.pcb_table p PCB.count_fault) p
      (fun c => c.map_page v f)) j PCB.zero).swap_count = _
    rw [pcb_after_free s.pcb_table p v f j hp.1 hlen]
    by_cases hj : j = p
    · subst hj; simp [swaps]
    · simp [hj, swaps]

/-- Counters after a page fault that replaces a frame. -/
theorem counters_evict {cfg : Config} {s : Kernel} (h : Inv cfg s) (oob : PageEntry)
    {p v f : Int} {rest : List Int}
    (hp : 0 ≤ p ∧ p < cfg.PROCESS_COUNT) (hv : 0 ≤ v ∧ v < PAGE_TABLE_SIZE)
    (hval : (entryOf s p v).valid = false) (hf : s.free_frame_list = [])
    (ha : s.active_frames_queue = f :: rest) :
    (access oob s p v).2.replacement_occurred = true ∧
    (access oob s p v).2.victim_pid = (getI s.frame_table f FrameInfo.none).pid ∧
    (access oob s p v).1.total_access = s.total_access + 1 ∧
    (access oob s p v).1.total_page_faults = s.total_page_faults + 1 ∧
    (access oob s p v).1.total_swap_outs = s.total_swap_outs + 1 ∧
    (∀ j, fault_count (access oob s p v).1 j =
      if j = p then fault_count s j + 1 else fault_count s j) ∧
    (∀ j, swaps (access oob s p v).1 j =
      if j = (getI s.frame_table f FrameInfo.none).pid then swaps s j + 1 else swaps s j) := by
  have hfmem : f ∈ s.active_frames_queue := by rw [ha]; simp
  have ho := h.owner f hfmem
  have hvp : (getI s.frame_table f FrameInfo.none).pid ≠ -1 := by
    have := ho.1.1; omega
  rw [access_evict oob s p v f rest (by rw [h.read_entry oob hp hv]; exact hval) hf ha hvp]
  have hlen : (p : Int) < s.pcb_table.length := by rw [h.pcb_len]; exact hp.2
  have hqlen : (getI s.frame_table f FrameInfo.none).pid < s.pcb_table.length := by
    rw [h.pcb_len]; exact ho.1.2
  refine ⟨rfl, rfl, rfl, rfl, rfl, ?_, ?_⟩
  · intro j
    show (getI (updPCB (updPCB (updPCB s.pcb_table p PCB.count_fault) _
      (fun c => c.swap_out _)) p (fun c => c.map_page v f)) j PCB.zero).page_fault_count = _
    rw [pcb_after_evict s.pcb_table p v f _ _ j hp.1 hlen ho.1.1 hqlen]
    by_cases hj : j = p
    · subst hj
      by_cases hq : (getI s.frame_table f FrameInfo.none).pid = j
      · simp [hq, fault_count]
      · simp [hq, fault_count]
    · by_cases hq : j = (getI s.frame_table f FrameInfo.none).pid
      · rw [if_neg hj, if_pos hq, if_neg hj]; simp [fault_count, hq]
      · simp [hj, hq, fault_count]
  · intro j
    show (getI (updPCB (updPCB (updPCB s.pcb_table p PCB.count_fault) _
      (fun c => c.swap_out _)) p (fun c => c.map_page v f)) j PCB.zero).swap_count = _
    rw [pcb_after_evict s.pcb_table p v f _ _ j hp.1 hlen ho.1.1 hqlen]
    by_cases hj : j = p
    · subst hj
      by_cases hq : (getI s.frame_table f FrameInfo.none).pid = j
      · have hq' : j = (getI s.frame_table f FrameInfo.none).pid := hq.symm
        rw [if_pos rfl, if_pos hq, if_pos hq']; simp [swaps]
      · have hq' : ¬ j = (getI s.frame_table f FrameInfo.none).pid := fun e => hq e.symm
        rw [if_pos rfl, if_neg hq, if_neg hq']; simp [swaps]
    · by_cases hq : j = (getI s.frame_table f FrameInfo.none).pid
      · rw [if_neg hj, if_pos hq, if_pos hq]; simp [swaps, hq]
      · rw [if_neg hj, if_neg hq, if_neg hq]; rfl

theorem CountersLe.refl (s : Kernel) : CountersLe s s :=
  ⟨le_refl _, le_refl _, le_refl _, fun _ => ⟨le_refl _, le_refl _⟩⟩

theorem CountersLe.trans {a b c : Kernel} (h1 : CountersLe a b) (h2 : CountersLe b c) :
    CountersLe a c :=
  ⟨le_trans h1.1 h2.1, le_trans h1.2.1 h2.2.1, le_trans h1.2.2.1 h2.2.2.1,
    fun j => ⟨le_trans (h1.2.2.2 j).1 (h2.2.2.2 j).1, le_trans (h1.2.2.2 j).2 (h2.2.2.2 j).2⟩⟩

/-- No counter decreases in an in-range access. -/
theorem countersLe_access {cfg : Config} {s : Kernel} (h : Inv cfg s)
    (hT : 0 < cfg.TOTAL_FRAMES) (oob : PageEntry) {p v : Int}
    (hp : 0 ≤ p ∧ p < cfg.PROCESS_COUNT) (hv : 0 ≤ v ∧ v < PAGE_TABLE_SIZE) :
    CountersLe s (access oob s p v).1 := by
  cases hval : (entryOf s p v).valid with
  | true =>
    obtain ⟨_, h1, h2, h3, h4, h5⟩ := counters_hit h oob hp hv hval
    refine ⟨by omega, by omega, by omega, fun j => ⟨?_, ?_⟩⟩
    · rw [h4]
    · rw [h5]
  | false =>
    cases hf : s.free_frame_list with
    | cons f rest =>
      obtain ⟨_, h1, h2, h3, h4, h5⟩ := counters_free h oob hp hv hval hf
      refine ⟨by omega, by omega, by omega, fun j => ⟨?_, ?_⟩⟩
      · rw [h4]; split <;> omega
      · rw [h5]
    | nil =>
      obtain ⟨f, rest, ha⟩ := h.active_ne_nil hT hf
      obtain ⟨_, _, h1, h2, h3, h4, h5⟩ := counters_evict h oob hp hv hval hf ha
      refine ⟨by omega, by omega, by omega, fun j => ⟨?_, ?_⟩⟩
      · rw [h4]; split <;> omega
      · rw [h5]; split <;> omega

/-- No counter decreases along a run of in-range accesses. -/
theorem countersLe_run {cfg : Config} (hT : 0 < cfg.TOTAL_FRAMES) (oob : PageEntry)
    (l : List (Int × Int)) : ∀ {s : Kernel}, Inv cfg s → InRange cfg l →
    CountersLe s (run_accesses oob s l) := by
  induction l with
  | nil => intro s _ _; exact CountersLe.refl s
  | cons a l ih =>
    intro s h hr
    have ha := hr a (List.mem_cons_self _ _)
    exact (countersLe_access h hT oob ha.1 ha.2).trans
      (ih (inv_access h hT oob ha.1 ha.2) (fun b hb => hr b (List.mem_cons_of_mem _ hb)))

/-- C6: for a reachable state and an in-range access by process `p`, the fault
counter of `p` and `total_page_faults` rise by exactly 1 when the entry was not
valid and are unchanged otherwise; no other fault counter changes;
`total_swap_outs` rises by exactly 1 exactly when the access replaces a frame
(entry not valid and empty free list), and then the owner of the replaced
frame exists and is the only process whose `swap_count` changes, by exactly 1;
no counter decreases, neither in the access nor along any later run. -/
theorem counter_accounting (cfg : Config) (hT : 0 < cfg.TOTAL_FRAMES) (oob : PageEntry)
    (s : Kernel) (hs : Reachable cfg oob s) (p v : Int)
    (hp : 0 ≤ p ∧ p < cfg.PROCESS_COUNT) (hv : 0 ≤ v ∧ v < PAGE_TABLE_SIZE) :
    ((entryOf s p v).valid = false →
      (access oob s p v).1.total_page_faults = s.total_page_faults + 1 ∧
      fault_count (access oob s p v).1 p = fault_count s p + 1) ∧
    ((entryOf s p v).valid = true →
      (access oob s p v).1.total_page_faults = s.total_page_faults ∧
      fault_count (access oob s p v).1 p = fault_count s p) ∧
    (∀ j : Int, j ≠ p → fault_count (access oob s p v).1 j = fault_count s j) ∧
    ((access oob s p v).2.replacement_occurred = true ↔
      ((entryOf s p v).valid = false ∧ s.free_frame_list = [])) ∧
    ((access oob s p v).2.replacement_occurred = true →
      (access oob s p v).1.total_swap_outs = s.total_swap_outs + 1 ∧
      (0 ≤ (access oob s p v).2.victim_pid ∧
        (access oob s p v).2.victim_pid < cfg.PROCESS_COUNT) ∧
      (∃ f rest, s.active_frames_queue = f :: rest ∧
        (getI s.frame_table f FrameInfo.none).pid = (access oob s p v).2.victim_pid) ∧
      swaps (access oob s p v).1 (access oob s p v).2.victim_pid =
        swaps s (access oob s p v).2.victim_pid + 1 ∧
      (∀ j : Int, j ≠ (access oob s p v).2.victim_pid →
        swaps (access oob s p v).1 j = swaps s j)) ∧
    ((access oob s p v).2.replacement_occurred = false →
      (access oob s p v).1.total_swap_outs = s.total_swap_outs ∧
      (∀ j : Int, swaps (access oob s p v).1 j = swaps s j)) ∧
    CountersLe s (access oob s p v).1 ∧
    (∀ l : List (Int × Int), InRange cfg l → CountersLe s (run_accesses oob s l)) := by
  have h := hs.inv hT
  refine ⟨?_, ?_, ?_, ?_, ?_, ?_, countersLe_access h hT oob hp hv,
    fun l hl => countersLe_run hT oob l h hl⟩
  · intro hval
    cases hf : s.free_frame_list with
    | cons f rest =>
      obtain ⟨_, _, h2, _, h4, _⟩ := counters_free h oob hp hv hval hf
      exact ⟨h2, by rw [h4]; simp⟩
    | nil =>
      obtain ⟨f, rest, ha⟩ := h.active_ne_nil hT hf
      obtain ⟨_, _, _, h2, _, h4, _⟩ := counters_evict h oob hp hv hval hf ha
      exact ⟨h2, by rw [h4]; simp⟩
  · intro hval
    obtain ⟨_, _, h2, _, h4, _⟩ := counters_hit h oob hp hv hval
    exact ⟨h2, h4 p⟩
  · intro j hj
    cases hval : (entryOf s p v).valid with
    | true => exact (counters_hit h oob hp hv hval).2.2.2.2.1 j
    | false =>
      cases hf : s.free_frame_list with
      | cons f rest =>
        rw [(counters_free h oob hp hv hval hf).2.2.2.2.1 j, if_neg hj]
      | nil =>
        obtain ⟨f, rest, ha⟩ := h.active_ne_nil hT hf
        rw [(counters_evict h oob hp hv hval hf ha).2.2.2.2.2.1 j, if_neg hj]
  · cases hval : (entryOf s p v).valid with
    | true => simp [(counters_hit h oob hp hv hval).1]
    | false =>
      cases hf : s.free_frame_list with
      | cons f rest => simp [(counters_free h oob hp hv hval hf).1]
      | nil =>
        obtain ⟨f, rest, ha⟩ := h.active_ne_nil hT hf
        simp [(counters_evict h oob hp hv hval hf ha).1]
  · intro hrep
    cases hval : (entryOf s p v).valid with
    | true => rw [(counters_hit h oob hp hv hval).1] at hrep; exact absurd hrep (by simp)
    | false =>
      cases hf : s.free_frame_list with
      | cons f rest =>
        rw [(counters_free h oob hp hv hval hf).1] at hrep; exact absurd hrep (by simp)
      | nil =>
        obtain ⟨f, rest, ha⟩ := h.active_ne_nil hT hf
        obtain ⟨_, hvic, _, _, h3, _, h5⟩ := counters_evict h oob hp hv hval hf ha
        have ho := h.owner f (by rw [ha]; simp)
        rw [hvic]
        refine ⟨h3, ho.1, ⟨f, rest, ha, rfl⟩, ?_, ?_⟩
        · rw [h5]; simp
        · intro j hj; rw [h5, if_neg hj]
  · intro hrep
    cases hval : (entryOf s p v).valid with
    | true =>
      obtain ⟨_, _, _, h3, _, h5⟩ := counters_hit h oob hp hv hval
      exact ⟨h3, h5⟩
    | false =>
      cases hf : s.free_frame_list with
      | cons f rest =>
        obtain ⟨_, _, _, h3, _, h5⟩ := counters_free h oob hp hv hval hf
        exact ⟨h3, h5⟩
      | nil =>
        obtain ⟨f, rest, ha⟩ := h.active_ne_nil hT hf
        rw [(counters_evict h oob hp hv hval hf ha).1] at hrep
        exact absurd hrep (by simp)

/-- C6 after the accesses 0:0, 0:1 with two frames, for the fault of process 1
on page 5: it replaces a frame of process 0. -/
theorem counter_accounting_witness :
    (0 < two_frames.TOTAL_FRAMES ∧
      Reachable two_frames PageEntry.initial
        (run_accesses PageEntry.initial (init two_frames) [(0, 0), (0, 1)])) ∧
    ((access PageEntry.initial
        (run_accesses PageEntry.initial (init two_frames) [(0, 0), (0, 1)]) 1 5).2.replacement_occurred
        = true ↔
      ((entryOf (run_accesses PageEntry.initial (init two_frames) [(0, 0), (0, 1)]) 1 5).valid
          = false ∧
        (run_accesses PageEntry.initial (init two_frames) [(0, 0), (0, 1)]).free_frame_list
          = [])) :=
  ⟨⟨by decide, ⟨[(0, 0), (0, 1)], by decide, rfl⟩⟩,
   (counter_accounting two_frames (by decide) PageEntry.initial _
     ⟨[(0, 0), (0, 1)], by decide, rfl⟩ 1 5 (by decide) (by decide)).2.2.2.1⟩

/-! ## C7: scenario 1 -/

/-- C7 (scenario 1): with two frames, all free, process 0 accessing pages 0, 1,
2 in that order faults three times: page 0 gets frame 0, page 1 gets frame 1,
and the fault on page 2 replaces frame 0, which held page 0.  At the end page 0
is invalid and swapped, page 1 is valid in frame 1, page 2 is valid in frame 0,
`page_fault_count` is 3 and `swap_count` is 1. -/
theorem scenario_one (oob : PageEntry) :
    access_results oob (init two_frames) [(0, 0), (0, 1), (0, 2)] =
      [{ hit := false, frame := 0, replacement_occurred := false,
         victim_pid := -1, victim_page := -1 },
       { hit := false, frame := 1, replacement_occurred := false,
         victim_pid := -1, victim_page := -1 },
       { hit := false, frame := 0, replacement_occurred := true,
         victim_pid := 0, victim_page := 0 }] ∧
    (entryOf (run_accesses oob (init two_frames) [(0, 0), (0, 1), (0, 2)]) 0 0).valid = false ∧
    (entryOf (run_accesses oob (init two_frames) [(0, 0), (0, 1), (0, 2)]) 0 0).is_swapped
      = true ∧
    entryOf (run_accesses oob (init two_frames) [(0, 0), (0, 1), (0, 2)]) 0 1 =
      { valid := true, is_swapped := false, frame_number := 1 } ∧
    entryOf (run_accesses oob (init two_frames) [(0, 0), (0, 1), (0, 2)]) 0 2 =
      { valid := true, is_swapped := false, frame_number := 0 } ∧
    fault_count (run_accesses oob (init two_frames) [(0, 0), (0, 1), (0, 2)]) 0 = 3 ∧
    swaps (run_accesses oob (init two_frames) [(0, 0), (0, 1), (0, 2)]) 0 = 1 ∧
    (run_accesses oob (init two_frames) [(0, 0), (0, 1), (0, 2)]).total_page_faults = 3 ∧
    (run_accesses oob (init two_frames) [(0, 0), (0, 1), (0, 2)]).total_swap_outs = 1 := by
  refine ⟨?_, ?_, ?_, ?_, ?_, ?_, ?_, ?_, ?_⟩ <;> rfl

/-! ## C3: FIFO order -/

/-- Frame lists and reverse map after a page fault served from the free list. -/
theorem access_free_effect {cfg : Config} {s : Kernel} (h : Inv cfg s) (oob : PageEntry)
    {p v f : Int} {rest : List Int}
    (hp : 0 ≤ p ∧ p < cfg.PROCESS_COUNT) (hv : 0 ≤ v ∧ v < PAGE_TABLE_SIZE)
    (hval : (entryOf s p v).valid = false) (hf : s.free_frame_list = f :: rest) :
    (access oob s p v).2 =
      { hit := false, frame := f, replacement_occurred := false,
        victim_pid := -1, victim_page := -1 } ∧
    (access oob s p v).1.active_frames_queue = s.active_frames_queue ++ [f] ∧
    (access oob s p v).1.free_frame_list = rest ∧
    (∀ g, getI (access oob s p v).1.frame_table g FrameInfo.none =
      if f = g then ⟨p, v⟩ else getI s.frame_table g FrameInfo.none) := by
  rw [access_free oob s p v f rest (by rw [h.read_entry oob hp hv]; exact hval) hf]
  have hfr : 0 ≤ f ∧ f < cfg.TOTAL_FRAMES := h.frame_range (by simp [hf])
  refine ⟨rfl, rfl, rfl, ?_⟩
  intro g
  show getI (setI s.frame_table f ⟨(getI s.pcb_table p PCB.zero).logical_pid, v⟩) g
    FrameInfo.none = _
  rw [getI_setI, (h.pcb_wf p hp.1 hp.2).1, h.ft_len]
  simp [hfr.1, hfr.2]

/-- The owners recorded for the frames of `q` are not touched by a write to
the slot of a frame outside `q`. -/
theorem live_map_congr (t t' : List FrameInfo) (f : Int) (x : FrameInfo) (q : List Int)
    (hq : f ∉ q)
    (ht : ∀ g, getI t' g FrameInfo.none = if f = g then x else getI t g FrameInfo.none) :
    q.map (fun g => ((getI t' g FrameInfo.none).pid, (getI t' g FrameInfo.none).page_idx, g)) =
    q.map (fun g => ((getI t g FrameInfo.none).pid, (getI t g FrameInfo.none).page_idx, g)) := by
  apply List.map_congr_left
  intro g hg
  have : ¬ f = g := by rintro rfl; exact hq hg
  rw [ht g, if_neg this]

theorem access_results_cons (oob : PageEntry) (s : Kernel) (a : Int × Int)
    (l : List (Int × Int)) :
    access_results oob s (a :: l) =
      (access oob s a.1 a.2).2 :: access_results oob (access oob s a.1 a.2).1 l := rfl

/-- One access: the replaced allocation, if any, followed by the live
allocations afterwards, is the list of the live allocations before followed by
the new allocation, if any. -/
theorem fifo_step {cfg : Config} {s : Kernel} (h : Inv cfg s) (hT : 0 < cfg.TOTAL_FRAMES)
    (oob : PageEntry) {p v : Int}
    (hp : 0 ≤ p ∧ p < cfg.PROCESS_COUNT) (hv : 0 ≤ v ∧ v < PAGE_TABLE_SIZE) :
    evictions [(access oob s p v).2] ++ live_allocations (access oob s p v).1 =
      live_allocations s ++ allocations [(p, v)] [(access oob s p v).2] := by
  cases hval : (entryOf s p v).valid with
  | true =>
    rw [access_hit oob s p v (by rw [h.read_entry oob hp hv]; exact hval)]
    simp [evictions, allocations, live_allocations]
  | false =>
    cases hf : s.free_frame_list with
    | cons f rest =>
      obtain ⟨hr, hq, _, hft⟩ := access_free_effect h oob hp hv hval hf
      have hnd := h.nodup
      rw [hf] at hnd
      have hfa : f ∉ s.active_frames_queue := by
        intro hmem
        exact (List.nodup_append.1 hnd).2.2 hmem (by simp)
      unfold live_allocations
      rw [hr, hq, List.map_append, live_map_congr _ _ f ⟨p, v⟩ _ hfa hft]
      simp [evictions, allocations, hft]
    | nil =>
      obtain ⟨f, rest, ha⟩ := h.active_ne_nil hT hf
      obtain ⟨hr, hq, _, _, hft⟩ := access_evict_effect h oob hp hv hval hf ha
      have hnd := h.nodup
      rw [hf, ha, List.append_nil] at hnd
      have hfrest : f ∉ rest := (List.nodup_cons.1 hnd).1
      unfold live_allocations
      rw [hr, hq, ha, List.map_append, live_map_congr _ _ f ⟨p, v⟩ _ hfrest hft]
      simp [evictions, allocations, hft]

theorem evictions_cons (r : AccessResult) (rs : List AccessResult) :
    evictions (r :: rs) = evictions [r] ++ evictions rs := by
  simp only [evictions]; split <;> simp

theorem allocations_cons (a : Int × Int) (l : List (Int × Int)) (r : AccessResult)
    (rs : List AccessResult) :
    allocations (a :: l) (r :: rs) = allocations [a] [r] ++ allocations l rs := by
  simp only [allocations]; split <;> simp

/-- Along a run: the replaced allocations followed by the live allocations at
the end are the live allocations at the start followed by the new ones. -/
theorem fifo_run {cfg : Config} (hT : 0 < cfg.TOTAL_FRAMES) (oob : PageEntry)
    (l : List (Int × Int)) : ∀ {s : Kernel}, Inv cfg s → InRange cfg l →
    evictions (access_results oob s l) ++ live_allocations (run_accesses oob s l) =
      live_allocations s ++ allocations l (access_results oob s l) := by
  induction l with
  | nil => intro s _ _; simp [evictions, allocations, access_results, run_accesses]
  | cons a l ih =>
    intro s h hr
    have ha := hr a (List.mem_cons_self _ _)
    have ih' := ih (inv_access h hT oob ha.1 ha.2) (fun b hb => hr b (List.mem_cons_of_mem _ hb))
    have hs := fifo_step h hT oob ha.1 ha.2
    rw [access_results_cons, run_accesses_cons, evictions_cons, allocations_cons,
      List.append_assoc, ih', ← List.append_assoc, hs, List.append_assoc]

/-- C3 (FIFO order law): for every run of in-range accesses by any processes,
(1) the allocations ended by the replacements, in order, followed by the live
allocations in queue order, are exactly the allocations made by the page
faults, in order; hence (2) the live allocations are the allocations not yet
replaced, oldest first, and (3) the N-th replacement ends the allocation made
by the N-th page fault, hits playing no part; (4) whichever process faults
next, a replacement takes the allocation at the front of the queue, the oldest
live one; (5) scenario 2: with two frames, after process 0 faulted on page 5
(frame 0) and process 1 on page 9 (frame 1), every further fault replaces
frame 0, page 5 of process 0, and leaves page 9 of process 1 valid in frame 1. -/
theorem fifo_order (cfg : Config) (hT : 0 < cfg.TOTAL_FRAMES) (oob : PageEntry)
    (l : List (Int × Int)) (hl : InRange cfg l) :
    evictions (access_results oob (init cfg) l) ++
        live_allocations (run_accesses oob (init cfg) l) =
      allocations l (access_results oob (init cfg) l) ∧
    live_allocations (run_accesses oob (init cfg) l) =
      (allocations l (access_results oob (init cfg) l)).drop
        (evictions (access_results oob (init cfg) l)).length ∧
    (∀ N : Nat, N < (evictions (access_results oob (init cfg) l)).length →
      (evictions (access_results oob (init cfg) l))[N]? =
        (allocations l (access_results oob (init cfg) l))[N]?) ∧
    (∀ p v : Int, (0 ≤ p ∧ p < cfg.PROCESS_COUNT) → (0 ≤ v ∧ v < PAGE_TABLE_SIZE) →
      (access oob (run_accesses oob (init cfg) l) p v).2.replacement_occurred = true →
      (live_allocations (run_accesses oob (init cfg) l)).head? =
        some ((access oob (run_accesses oob (init cfg) l) p v).2.victim_pid,
              (access oob (run_accesses oob (init cfg) l) p v).2.victim_page,
              (access oob (run_accesses oob (init cfg) l) p v).2.frame)) ∧
    (access_results oob (init two_frames) [(0, 5), (1, 9)] =
        [{ hit := false, frame := 0, replacement_occurred := false,
           victim_pid := -1, victim_page := -1 },
         { hit := false, frame := 1, replacement_occurred := false,
           victim_pid := -1, victim_page := -1 }] ∧
      ∀ p v : Int, (0 ≤ p ∧ p < two_frames.PROCESS_COUNT) → (0 ≤ v ∧ v < PAGE_TABLE_SIZE) →
        (entryOf (run_accesses oob (init two_frames) [(0, 5), (1, 9)]) p v).valid = false →
        (access oob (run_accesses oob (init two_frames) [(0, 5), (1, 9)]) p v).2 =
          { hit := false, frame := 0, replacement_occurred := true,
            victim_pid := 0, victim_page := 5 } ∧
        (entryOf (access oob (run_accesses oob (init two_frames) [(0, 5), (1, 9)]) p v).1
          0 5).valid = false ∧
        entryOf (access oob (run_accesses oob (init two_frames) [(0, 5), (1, 9)]) p v).1 1 9 =
          { valid := true, is_swapped := false, frame_number := 1 }) := by
  have hrun := fifo_run hT oob l (init_inv cfg) hl
  have hlive0 : live_allocations (init cfg) = [] := rfl
  rw [hlive0, List.nil_append] at hrun
  have h := inv_run_accesses hT oob l (init_inv cfg) hl
  refine ⟨hrun, ?_, ?_, ?_, rfl, ?_⟩
  · rw [← hrun, List.drop_left]
  · intro N hN
    rw [← hrun, List.getElem?_append_left hN]
  · intro p v hp hv hrep
    cases hval : (entryOf (run_accesses oob (init cfg) l) p v).valid with
    | true =>
      rw [(counters_hit h oob hp hv hval).1] at hrep; exact absurd hrep (by simp)
    | false =>
      cases hf : (run_accesses oob (init cfg) l).free_frame_list with
      | cons f rest =>
        rw [(counters_free h oob hp hv hval hf).1] at hrep; exact absurd hrep (by simp)
      | nil =>
        obtain ⟨f, rest, ha⟩ := h.active_ne_nil hT hf
        obtain ⟨hr, _, _, _, _⟩ := access_evict_effect h oob hp hv hval hf ha
        rw [hr]
        simp [live_allocations, ha]
  · intro p v hp hv hval
    have h2 : Inv two_frames (run_accesses oob (init two_frames) [(0, 5), (1, 9)]) :=
      inv_run_accesses (by decide) oob _ (init_inv two_frames) (by decide)
    have hf : (run_accesses oob (init two_frames) [(0, 5), (1, 9)]).free_frame_list = [] := rfl
    have ha : (run_accesses oob (init two_frames) [(0, 5), (1, 9)]).active_frames_queue
        = 0 :: [1] := rfl
    have hft : getI (run_accesses oob (init two_frames) [(0, 5), (1, 9)]).frame_table 0
        FrameInfo.none = ⟨0, 5⟩ := rfl
    have h19 : entryOf (run_accesses oob (init two_frames) [(0, 5), (1, 9)]) 1 9 =
        ⟨true, false, 1⟩ := rfl
    have h05 : (entryOf (run_accesses oob (init two_frames) [(0, 5), (1, 9)]) 0 5).valid
        = true := rfl
    obtain ⟨hr, _, _, he, _⟩ := access_evict_effect h2 oob hp hv hval hf ha
    rw [hft] at hr he
    have hne1 : ¬ ((1 : Int) = p ∧ (9 : Int) = v) := by
      rintro ⟨rfl, rfl⟩
      rw [h19] at hval
      exact absurd hval (by simp)
    have hne0 : ¬ ((0 : Int) = p ∧ (5 : Int) = v) := by
      rintro ⟨rfl, rfl⟩
      rw [h05] at hval
      exact absurd hval (by simp)
    refine ⟨hr, ?_, ?_⟩
    · rw [he, if_neg hne0]; simp
    · rw [he, if_neg hne1, h19]; simp

/-- C3 on the run 0:5, 1:9, 0:5 (hit), 1:3, 0:7 with two frames: the two
replacements end the allocations of the first two faults. -/
theorem fifo_order_witness :
    (0 < two_frames.TOTAL_FRAMES ∧
      InRange two_frames [(0, 5), (1, 9), (0, 5), (1, 3), (0, 7)]) ∧
    evictions (access_results PageEntry.initial (init two_frames)
        [(0, 5), (1, 9), (0, 5), (1, 3), (0, 7)]) ++
      live_allocations (run_accesses PageEntry.initial (init two_frames)
        [(0, 5), (1, 9), (0, 5), (1, 3), (0, 7)]) =
    allocations [(0, 5), (1, 9), (0, 5), (1, 3), (0, 7)]
      (access_results PageEntry.initial (init two_frames)
        [(0, 5), (1, 9), (0, 5), (1, 3), (0, 7)]) :=
  ⟨⟨by decide, by decide⟩,
   (fifo_order two_frames (by decide) PageEntry.initial
     [(0, 5), (1, 9), (0, 5), (1, 3), (0, 7)] (by decide)).1⟩

/-! ## C8: tick accounting -/

/-- An access, whatever its arguments, leaves the queues of PCBs and the tick
alone and counts once in `total_access`. -/
theorem access_sched_fields (oob : PageEntry) (s : Kernel) (p v : Int) :
    (access oob s p v).1.run_queue = s.run_queue ∧
    (access oob s p v).1.wait_queue = s.wait_queue ∧
    (access oob s p v).1.tick = s.tick ∧
    (access oob s p v).1.total_access = s.total_access + 1 := by
  unfold access
  simp only []
  split
  · exact ⟨rfl, rfl, rfl, rfl⟩
  · split
    · exact ⟨rfl, rfl, rfl, rfl⟩
    · exact ⟨rfl, rfl, rfl, rfl⟩

theorem run_accesses_sched_fields (oob : PageEntry) (l : List (Int × Int)) : ∀ (s : Kernel),
    (run_accesses oob s l).run_queue = s.run_queue ∧
    (run_accesses oob s l).wait_queue = s.wait_queue ∧
    (run_accesses oob s l).tick = s.tick ∧
    (run_accesses oob s l).total_access = s.total_access + l.length := by
  induction l with
  | nil => intro s; simp [run_accesses]
  | cons a l ih =>
    intro s
    rw [run_accesses_cons]
    obtain ⟨h1, h2, h3, h4⟩ := ih (access oob s a.1 a.2).1
    obtain ⟨g1, g2, g3, g4⟩ := access_sched_fields oob s a.1 a.2
    refine ⟨h1.trans g1, h2.trans g2, h3.trans g3, ?_⟩
    rw [h4, g4, List.length_cons]
    push_cast
    ring

theorem length_burst_accesses (p : Int) (msg : MsgBuf) (n : Nat) :
    (burst_accesses p msg n).length = n := by
  simp [burst_accesses]

theorem run_burst_fields (cfg : Config) (oob : PageEntry) (s : Kernel) (msg : MsgBuf)
    (current_proc : Int) (rest : List Int) :
    (run_burst cfg oob s msg current_proc rest).run_queue = rest ++ [current_proc] ∧
    (run_burst cfg oob s msg current_proc rest).wait_queue = s.wait_queue ∧
    (run_burst cfg oob s msg current_proc rest).tick = s.tick ∧
    (run_burst cfg oob s msg current_proc rest).total_access =
      s.total_access + cfg.ACCESS_PER_TICK := by
  have h := run_accesses_sched_fields oob
    (burst_accesses current_proc msg cfg.ACCESS_PER_TICK) { s with run_queue := rest }
  rw [length_burst_accesses] at h
  unfold run_burst
  exact ⟨by simp only [h.1], h.2.1, h.2.2.1, h.2.2.2⟩

/-- The dashboard leaves queues, tick and access count alone. -/
theorem status_fields (c : Prop) [Decidable c] (s : Kernel) :
    (if c then print_system_status s else s).run_queue = s.run_queue ∧
    (if c then print_system_status s else s).wait_queue = s.wait_queue ∧
    (if c then print_system_status s else s).tick = s.tick ∧
    (if c then print_system_status s else s).total_access = s.total_access := by
  split <;> exact ⟨rfl, rfl, rfl, rfl⟩

/-- A tick with an empty wait queue and `current_proc` at the front of the run
queue: the burst of `current_proc` is resolved and it is requeued at the back. -/
theorem kernel_tick_dispatch (cfg : Config) (oob : PageEntry) (s : Kernel) (msg : MsgBuf)
    (current_proc : Int) (rest : List Int)
    (hw : s.wait_queue = []) (hr : s.run_queue = current_proc :: rest) :
    kernel_tick cfg oob s msg =
      { (if s.tick % 5 = 0 then print_system_status (run_burst cfg oob s msg current_proc rest)
         else run_burst cfg oob s msg current_proc rest) with
        tick := s.tick + 1 } := by
  have h := run_burst_fields cfg oob s msg current_proc rest
  have hd : drain_wait_queue s.wait_queue.length s = s := by rw [hw]; rfl
  unfold kernel_tick
  simp only [hd, hr, h.2.2.1]
  rw [(status_fields _ _).2.2.1, h.2.2.1]

/-- Queues and access count after a tick that dispatches `current_proc`. -/
theorem kernel_tick_fields (cfg : Config) (oob : PageEntry) (s : Kernel) (msg : MsgBuf)
    (current_proc : Int) (rest : List Int)
    (hw : s.wait_queue = []) (hr : s.run_queue = current_proc :: rest) :
    (kernel_tick cfg oob s msg).run_queue = rest ++ [current_proc] ∧
    (kernel_tick cfg oob s msg).wait_queue = [] ∧
    (kernel_tick cfg oob s msg).tick = s.tick + 1 ∧
    (kernel_tick cfg oob s msg).total_access = s.total_access + cfg.ACCESS_PER_TICK := by
  have h := run_burst_fields cfg oob s msg current_proc rest
  have g := status_fields (s.tick % 5 = 0) (run_burst cfg oob s msg current_proc rest)
  rw [kernel_tick_dispatch cfg oob s msg current_proc rest hw hr]
  refine ⟨?_, ?_, rfl, ?_⟩
  · exact g.1.trans h.1
  · exact (g.2.1.trans h.2.1).trans hw
  · exact g.2.2.2.trans h.2.2.2

theorem dispatched_eq (s : Kernel) (hw : s.wait_queue = []) :
    dispatched s = s.run_queue.head? := by
  unfold dispatched
  simp [hw, drain_wait_queue]

/-- Queues, tick and access count at each tick of the simulation. -/
theorem run_ticks_sched (cfg : Config) (oob : PageEntry) (replies : Nat → MsgBuf)
    (hP : 1 ≤ cfg.PROCESS_COUNT) (n : Nat) (hn : n ≤ cfg.SIMULATION_TICKS) :
    (run_ticks cfg oob replies n).tick = n ∧
    (run_ticks cfg oob replies n).wait_queue = [] ∧
    (run_ticks cfg oob replies n).run_queue =
      ((List.range cfg.PROCESS_COUNT).rotate n).map Int.ofNat ∧
    (run_ticks cfg oob replies n).total_access = n * cfg.ACCESS_PER_TICK := by
  induction n with
  | zero => simp [run_ticks, init]
  | succ n ih =>
    obtain ⟨h1, h2, h3, h4⟩ := ih (by omega)
    have hlt : (run_ticks cfg oob replies n).tick < cfg.SIMULATION_TICKS := by
      rw [h1]; exact_mod_cast hn
    have hne : (List.range cfg.PROCESS_COUNT).rotate n ≠ [] := by
      intro h
      have := congrArg List.length h
      simp at this
      omega
    obtain ⟨x, r, hxr⟩ := List.exists_cons_of_ne_nil hne
    have hq : (run_ticks cfg oob replies n).run_queue = Int.ofNat x :: r.map Int.ofNat := by
      rw [h3, hxr]; rfl
    have hstep : run_ticks cfg oob replies (n + 1) =
        kernel_tick cfg oob (run_ticks cfg oob replies n) (replies n) := by
      show (if _ then _ else _) = _
      rw [if_pos hlt]
    rw [hstep]
    obtain ⟨f1, f2, f3, f4⟩ := kernel_tick_fields cfg oob _ (replies n) _ _ h2 hq
    refine ⟨?_, f2, ?_, ?_⟩
    · rw [f3, h1]; push_cast; ring
    · rw [f1, ← List.rotate_rotate, hxr, List.rotate_cons_succ, List.rotate_zero]
      simp
    · rw [f4, h4]; push_cast; ring

theorem head_rotate_range (P n : Nat) (hP : 1 ≤ P) :
    ((List.range P).rotate n).head? = some (n % P) := by
  have hlt : n % P < (List.range P).length := by
    rw [List.length_range]; exact Nat.mod_lt _ (by omega)
  rw [← List.rotate_mod, List.length_range, List.head?_rotate hlt]
  simp at hlt
  simp [hlt]

/-- C8: from initialisation with at least one process, for every sequence of
replies and every `N` up to `SIMULATION_TICKS`, each tick `t < N` dispatches
exactly the process `t mod PROCESS_COUNT` found at the front of the run queue,
resolves the `ACCESS_PER_TICK` accesses of its reply and requeues it at the
back (the state after the tick is `run_burst` for that process, followed by
the dashboard every fifth tick and `tick++`), so that `total_access` rises by
`ACCESS_PER_TICK` per tick and equals `N * ACCESS_PER_TICK` after `N` ticks. -/
theorem tick_accounting (cfg : Config) (hP : 1 ≤ cfg.PROCESS_COUNT) (oob : PageEntry)
    (replies : Nat → MsgBuf) (N : Nat) (hN : N ≤ cfg.SIMULATION_TICKS) :
    (∀ t : Nat, t < N →
      dispatched (run_ticks cfg oob replies t) = some (Int.ofNat (t % cfg.PROCESS_COUNT)) ∧
      (∃ rest : List Int,
        (run_ticks cfg oob replies t).run_queue = Int.ofNat (t % cfg.PROCESS_COUNT) :: rest ∧
        (run_ticks cfg oob replies (t + 1)).run_queue =
          rest ++ [Int.ofNat (t % cfg.PROCESS_COUNT)] ∧
        run_ticks cfg oob replies (t + 1) =
          { (if (run_ticks cfg oob replies t).tick % 5 = 0 then
              print_system_status (run_burst cfg oob (run_ticks cfg oob replies t) (replies t)
                (Int.ofNat (t % cfg.PROCESS_COUNT)) rest)
             else run_burst cfg oob (run_ticks cfg oob replies t) (replies t)
                (Int.ofNat (t % cfg.PROCESS_COUNT)) rest) with
            tick := (run_ticks cfg oob replies t).tick + 1 }) ∧
      (burst_accesses (Int.ofNat (t % cfg.PROCESS_COUNT)) (replies t)
        cfg.ACCESS_PER_TICK).length = cfg.ACCESS_PER_TICK ∧
      (run_ticks cfg oob replies (t + 1)).total_access =
        (run_ticks cfg oob replies t).total_access + cfg.ACCESS_PER_TICK) ∧
    (run_ticks cfg oob replies N).total_access = N * cfg.ACCESS_PER_TICK := by
  refine ⟨?_, (run_ticks_sched cfg oob replies hP N hN).2.2.2⟩
  intro t ht
  obtain ⟨h1, h2, h3, h4⟩ := run_ticks_sched cfg oob replies hP t (by omega)
  obtain ⟨_, _, _, g4⟩ := run_ticks_sched cfg oob replies hP (t + 1) (by omega)
  have hhead := head_rotate_range cfg.PROCESS_COUNT t hP
  have hq : ∃ rest, (run_ticks cfg oob replies t).run_queue =
      Int.ofNat (t % cfg.PROCESS_COUNT) :: rest := by
    rw [h3]
    cases hrot : (List.range cfg.PROCESS_COUNT).rotate t with
    | nil => rw [hrot] at hhead; simp at hhead
    | cons x r =>
      rw [hrot] at hhead
      simp only [List.head?_cons, Option.some.injEq] at hhead
      subst hhead
      exact ⟨r.map Int.ofNat, rfl⟩
  obtain ⟨rest, hrest⟩ := hq
  have hlt : (run_ticks cfg oob replies t).tick < cfg.SIMULATION_TICKS := by
    rw [h1]; exact_mod_cast (by omega : t < cfg.SIMULATION_TICKS)
  have hstep : run_ticks cfg oob replies (t + 1) =
      kernel_tick cfg oob (run_ticks cfg oob replies t) (replies t) := by
    show (if _ then _ else _) = _
    rw [if_pos hlt]
  have hk := kernel_tick_dispatch cfg oob _ (replies t) _ _ h2 hrest
  have hfields := kernel_tick_fields cfg oob _ (replies t) _ _ h2 hrest
  refine ⟨?_, ⟨rest, hrest, ?_, hstep.trans hk⟩, length_burst_accesses _ _ _, ?_⟩
  · rw [dispatched_eq _ h2, hrest]; rfl
  · rw [hstep]; exact hfields.1
  · rw [g4, h4]; push_cast; ring

/-- C8 for the source configuration and replies that always ask for page 0:
three ticks give 30 accesses. -/
theorem tick_accounting_witness :
    (1 ≤ source_config.PROCESS_COUNT ∧ 3 ≤ source_config.SIMULATION_TICKS) ∧
    (run_ticks source_config PageEntry.initial
      (fun _ => { mtype := 999, pid := 0, cpu_burst := 5, io_burst := 2,
                  access_pages := fun _ => 0 }) 3).total_access =
      ((3 : Nat) : Int) * source_config.ACCESS_PER_TICK :=
  ⟨⟨by decide, by decide⟩,
   (tick_accounting source_config (by decide) PageEntry.initial
     (fun _ => { mtype := 999, pid := 0, cpu_burst := 5, io_burst := 2,
                 access_pages := fun _ => 0 }) 3 (by decide)).2⟩

/-! ## C9: every process is in exactly one place -/

theorem handle_io_completion_eq (pt : List ProcInfo) : ∀ rq : List Int,
    handle_io_completion pt rq =
      (pt.map io_step, rq ++ (pt.filter io_done).map ProcInfo.pid) := by
  induction pt with
  | nil => intro rq; simp [handle_io_completion]
  | cons p ps ih =>
    intro rq
    unfold handle_io_completion
    by_cases hw : p.is_waiting = true
    · by_cases hd : p.io_time - 1 ≤ 0
      · simp [hw, hd, ih, io_step, io_done]
      · simp [hw, hd, ih, io_step, io_done]
    · simp [hw, ih, io_step, io_done]

theorem io_step_pid (p : ProcInfo) : (io_step p).pid = p.pid := by
  unfold io_step; split
  · split <;> rfl
  · rfl

theorem io_step_waiting (p : ProcInfo) :
    (io_step p).is_waiting = (p.is_waiting && !io_done p) := by
  unfold io_step io_done
  by_cases hw : p.is_waiting = true
  · by_cases hd : p.io_time - 1 ≤ 0
    · simp [hw, hd]
    · simp [hw, hd]
  · simp [hw]

/-- Entries of a table with distinct pids are determined by their pid. -/
theorem eq_of_pid_eq {pt : List ProcInfo} (hnd : (pt.map ProcInfo.pid).Nodup)
    {p q : ProcInfo} (hp : p ∈ pt) (hq : q ∈ pt) (h : p.pid = q.pid) : p = q :=
  List.inj_on_of_nodup_map hnd hp hq h

/-- In a table with distinct pids, the pid of `p` occurs among the pids of the
entries selected by `d` once if `p` is selected and not at all otherwise. -/
theorem count_filter_pid {pt : List ProcInfo} (hnd : (pt.map ProcInfo.pid).Nodup)
    (d : ProcInfo → Bool) {p : ProcInfo} (hp : p ∈ pt) :
    ((pt.filter d).map ProcInfo.pid).count p.pid = if d p = true then 1 else 0 := by
  have hsub : ((pt.filter d).map ProcInfo.pid).Sublist (pt.map ProcInfo.pid) :=
    (List.filter_sublist pt).map _
  have hnd' := hnd.sublist hsub
  by_cases hdp : d p = true
  · rw [if_pos hdp]
    apply List.count_eq_one_of_mem hnd'
    exact List.mem_map.2 ⟨p, List.mem_filter.2 ⟨hp, hdp⟩, rfl⟩
  · rw [if_neg hdp]
    apply List.count_eq_zero_of_not_mem
    intro hmem
    obtain ⟨q, hq, hqp⟩ := List.mem_map.1 hmem
    have hq' := List.mem_filter.1 hq
    have : q = p := eq_of_pid_eq hnd hq'.1 hp hqp
    rw [this] at hq'
    exact hdp hq'.2

theorem io_phase_inv {s : Sched} (h : SchedInv s) : SchedInv (io_phase s) := by
  have hpt : (io_phase s).p_table = s.p_table.map io_step := by
    simp [io_phase, handle_io_completion_eq]
  have hrq : (io_phase s).ready_q =
      s.ready_q ++ (s.p_table.filter io_done).map ProcInfo.pid := by
    simp [io_phase, handle_io_completion_eq]
  have hrun : (io_phase s).running_pid = s.running_pid := rfl
  have hpids : (io_phase s).p_table.map ProcInfo.pid = s.p_table.map ProcInfo.pid := by
    rw [hpt, List.map_map]
    apply List.map_congr_left
    intro p _
    exact io_step_pid p
  constructor
  · rw [hpids]; exact h.pids_nodup
  · intro p hp
    rw [hpt] at hp
    obtain ⟨q, hq, rfl⟩ := List.mem_map.1 hp
    rw [io_step_pid]; exact h.pids_pos q hq
  · intro x hx
    rw [hpids]
    rw [hrq] at hx
    rcases List.mem_append.1 hx with hx | hx
    · exact h.ready_known x hx
    · obtain ⟨q, hq, rfl⟩ := List.mem_map.1 hx
      exact List.mem_map.2 ⟨q, (List.mem_filter.1 hq).1, rfl⟩
  · rw [hpids, hrun]; exact h.running_known
  · intro p hp
    rw [hpt] at hp
    obtain ⟨q, hq, rfl⟩ := List.mem_map.1 hp
    have h1 := h.one_place q hq
    unfold places at h1 ⊢
    rw [hrun, hrq, io_step_pid, List.count_append, count_filter_pid h.pids_nodup io_done hq,
      io_step_waiting]
    by_cases hd : io_done q = true
    · have hw : q.is_waiting = true := by
        unfold io_done at hd
        simp at hd
        exact hd.1
      rw [hw] at h1
      rw [if_pos hd, hd, hw]
      by_cases hr : s.running_pid = q.pid
      · rw [if_pos hr] at h1; simp at h1
      · rw [if_neg hr] at h1 ⊢
        simp at h1 ⊢
        omega
    · rw [if_neg hd]
      simp only [Bool.not_eq_true] at hd
      rw [hd]
      simp only [Bool.not_false, Bool.and_true, add_zero]
      exact h1

/-- A new scheduler state whose table is the old one with entries rewritten
without touching their pid is consistent as soon as its queue and running
process are known pids and every rewritten entry is in exactly one place. -/
theorem SchedInv.update {s s' : Sched} (h : SchedInv s) (g : ProcInfo → ProcInfo)
    (hg : ∀ p, (g p).pid = p.pid) (hpt : s'.p_table = s.p_table.map g)
    (hready : ∀ x ∈ s'.ready_q, x ∈ s.p_table.map ProcInfo.pid)
    (hrun : s'.running_pid = -1 ∨ s'.running_pid ∈ s.p_table.map ProcInfo.pid)
    (hone : ∀ p ∈ s.p_table, places s' (g p) = 1) : SchedInv s' := by
  have hpids : s'.p_table.map ProcInfo.pid = s.p_table.map ProcInfo.pid := by
    rw [hpt, List.map_map]
    apply List.map_congr_left
    intro p _
    exact hg p
  constructor
  · rw [hpids]; exact h.pids_nodup
  · intro p hp
    rw [hpt] at hp
    obtain ⟨q, hq, rfl⟩ := List.mem_map.1 hp
    rw [hg]; exact h.pids_pos q hq
  · rw [hpids]; exact hready
  · rw [hpids]; exact hrun
  · intro p hp
    rw [hpt] at hp
    obtain ⟨q, hq, rfl⟩ := List.mem_map.1 hp
    exact hone q hq

theorem dispatch_inv {s : Sched} (h : SchedInv s) : SchedInv (dispatch s) := by
  unfold dispatch
  by_cases hr : s.running_pid = -1
  · rw [if_pos hr]
    cases hq : s.ready_q with
    | nil => exact h
    | cons front rest =>
      simp only []
      apply h.update id (fun _ => rfl) (by simp)
      · intro x hx
        exact h.ready_known x (by rw [hq]; exact List.mem_cons_of_mem _ hx)
      · right
        exact h.ready_known front (by rw [hq]; exact List.mem_cons_self _ _)
      · intro p hp
        have h1 := h.one_place p hp
        have hpos := h.pids_pos p hp
        unfold places at h1 ⊢
        rw [hr, hq, List.count_cons] at h1
        have hne : ¬ ((-1 : Int) = p.pid) := by omega
        rw [if_neg hne] at h1
        simp only [id]
        by_cases hf : front = p.pid
        · rw [if_pos hf]
          simp [hf] at h1
          omega
        · rw [if_neg hf]
          simp [hf] at h1
          omega
  · rw [if_neg hr]; exact h

theorem find_proc_some (x : Int) (d : ProcInfo) : ∀ (pt : List ProcInfo) (i : Nat),
    find_proc x pt = some i → (pt.getD i d).pid = x ∧ pt.getD i d ∈ pt := by
  intro pt
  induction pt with
  | nil => intro i h; simp [find_proc] at h
  | cons p ps ih =>
    intro i h
    unfold find_proc at h
    by_cases hp : p.pid = x
    · rw [if_pos hp] at h
      cases h
      simp [hp]
    · rw [if_neg hp] at h
      cases hf : find_proc x ps with
      | none => rw [hf] at h; simp at h
      | some j =>
        rw [hf] at h
        simp at h
        subst h
        have := ih j hf
        simp only [List.getD_cons_succ]
        exact ⟨this.1, List.mem_cons_of_mem _ this.2⟩

/-- With distinct pids, writing `y` at the entry found for pid `x` rewrites
exactly the entries of pid `x`. -/
theorem set_found_eq_map (x : Int) (y : ProcInfo) : ∀ (pt : List ProcInfo) (i : Nat),
    find_proc x pt = some i → (pt.map ProcInfo.pid).Nodup →
    pt.set i y = pt.map (fun p => if p.pid = x then y else p) := by
  intro pt
  induction pt with
  | nil => intro i h; simp [find_proc] at h
  | cons p ps ih =>
    intro i h hnd
    rw [List.map_cons, List.nodup_cons] at hnd
    unfold find_proc at h
    by_cases hp : p.pid = x
    · rw [if_pos hp] at h
      cases h
      simp only [List.set_cons_zero, List.map_cons, if_pos hp]
      congr 1
      have hid : ps.map (fun q => if q.pid = x then y else q) = ps.map id := by
        apply List.map_congr_left
        intro q hq
        have : ¬ q.pid = x := by
          intro e
          apply hnd.1
          rw [hp, ← e]
          exact List.mem_map.2 ⟨q, hq, rfl⟩
        simp [this]
      rw [hid, List.map_id]
    · rw [if_neg hp] at h
      cases hf : find_proc x ps with
      | none => rw [hf] at h; simp at h
      | some j =>
        rw [hf] at h
        simp at h
        subst h
        simp only [List.set_cons_succ, List.map_cons, if_neg hp]
        rw [ih j hf hnd.2]

/-- The three outcomes of the tick of the running process: it blocks, it is
preempted to the back of the ready queue, or it keeps the CPU. -/
theorem run_case {s s' : Sched} (h : SchedInv s) {i : Nat}
    (hf : find_proc s.running_pid s.p_table = some i) (y : ProcInfo)
    (hy : y.pid = s.running_pid) (hpt : s'.p_table = s.p_table.set i y)
    (hcase :
      (s'.running_pid = -1 ∧ s'.ready_q = s.ready_q ∧ y.is_waiting = true) ∨
      (s'.running_pid = -1 ∧ s'.ready_q = s.ready_q ++ [s.running_pid] ∧
        y.is_waiting = (s.p_table.getD i ⟨0, 0, 0, false⟩).is_waiting) ∨
      (s'.running_pid = s.running_pid ∧ s'.ready_q = s.ready_q ∧
        y.is_waiting = (s.p_table.getD i ⟨0, 0, 0, false⟩).is_waiting)) :
    SchedInv s' := by
  obtain ⟨hcp, hcm⟩ := find_proc_some s.running_pid ⟨0, 0, 0, false⟩ s.p_table i hf
  have hc1 := h.one_place _ hcm
  unfold places at hc1
  rw [hcp, if_pos rfl] at hc1
  have hcount : s.ready_q.count s.running_pid = 0 := by omega
  have hcw : (s.p_table.getD i ⟨0, 0, 0, false⟩).is_waiting = false := by
    cases hw : (s.p_table.getD i ⟨0, 0, 0, false⟩).is_waiting with
    | false => rfl
    | true => rw [hw] at hc1; simp at hc1
  have hxpos : 0 < s.running_pid := by rw [← hcp]; exact h.pids_pos _ hcm
  have hxmem : s.running_pid ∈ s.p_table.map ProcInfo.pid :=
    List.mem_map.2 ⟨_, hcm, hcp⟩
  rw [set_found_eq_map s.running_pid y s.p_table i hf h.pids_nodup] at hpt
  have hg : ∀ p : ProcInfo, (if p.pid = s.running_pid then y else p).pid = p.pid := by
    intro p
    by_cases hp : p.pid = s.running_pid
    · rw [if_pos hp, hy, hp]
    · rw [if_neg hp]
  apply h.update _ hg hpt
  · intro x hx
    rcases hcase with ⟨_, hq, _⟩ | ⟨_, hq, _⟩ | ⟨_, hq, _⟩
    · rw [hq] at hx; exact h.ready_known x hx
    · rw [hq] at hx
      rcases List.mem_append.1 hx with hx | hx
      · exact h.ready_known x hx
      · simp at hx; rw [hx]; exact hxmem
    · rw [hq] at hx; exact h.ready_known x hx
  · rcases hcase with ⟨hr, _, _⟩ | ⟨hr, _, _⟩ | ⟨hr, _, _⟩
    · left; exact hr
    · left; exact hr
    · right; rw [hr]; exact hxmem
  · intro p hp
    have h1 := h.one_place p hp
    have hpos := h.pids_pos p hp
    unfold places at h1 ⊢
    by_cases hpx : p.pid = s.running_pid
    · rw [if_pos hpx, hy]
      rcases hcase with ⟨hr, hq, hw⟩ | ⟨hr, hq, hw⟩ | ⟨hr, hq, hw⟩
      · rw [hr, hq, hw, hcount]
        have : ¬ ((-1 : Int) = s.running_pid) := by omega
        simp [this]
      · rw [hr, hq, hw, hcw, List.count_append, hcount]
        have : ¬ ((-1 : Int) = s.running_pid) := by omega
        simp [this]
      · rw [hr, hq, hw, hcw, hcount]
        simp
    · rw [if_neg hpx]
      have hpx' : ¬ s.running_pid = p.pid := fun e => hpx e.symm
      rw [if_neg hpx'] at h1
      rcases hcase with ⟨hr, hq, _⟩ | ⟨hr, hq, _⟩ | ⟨hr, hq, _⟩
      · rw [hr, hq]
        have : ¬ ((-1 : Int) = p.pid) := by omega
        rw [if_neg this]; exact h1
      · rw [hr, hq, List.count_append]
        have : ¬ ((-1 : Int) = p.pid) := by omega
        rw [if_neg this]
        have hc0 : [s.running_pid].count p.pid = 0 := by
          apply List.count_eq_zero_of_not_mem
          simp
          exact hpx
        rw [hc0]
        exact h1
      · rw [hr, hq, if_neg hpx']; exact h1

theorem run_process_inv {s : Sched} (h : SchedInv s) (command : Int) (rnd : Nat) :
    SchedInv (run_process s command rnd) := by
  unfold run_process
  by_cases hr : s.running_pid ≠ -1
  · rw [if_pos hr]
    cases hf : find_proc s.running_pid s.p_table with
    | none => exact h
    | some i =>
      obtain ⟨hcp, _⟩ := find_proc_some s.running_pid ⟨0, 0, 0, false⟩ s.p_table i hf
      simp only []
      by_cases hc : command > 0
      · rw [if_pos hc]
        refine run_case h hf _ ?_ rfl (Or.inl ⟨rfl, rfl, rfl⟩)
        exact hcp
      · rw [if_neg hc]
        by_cases hq : s.q_counter - 1 ≤ 0
        · rw [if_pos hq]
          refine run_case h hf _ ?_ rfl (Or.inr (Or.inl ⟨rfl, rfl, rfl⟩))
          exact hcp
        · rw [if_neg hq]
          by_cases hb : (s.p_table.getD i ⟨0, 0, 0, false⟩).cpu_time - 1 ≤ 0
          · rw [if_pos hb]
            refine run_case h hf _ ?_ rfl (Or.inr (Or.inr ⟨rfl, rfl, rfl⟩))
            exact hcp
          · rw [if_neg hb]
            refine run_case h hf _ ?_ rfl (Or.inr (Or.inr ⟨rfl, rfl, rfl⟩))
            exact hcp
  · rw [if_neg hr]; exact h

theorem sched_tick_inv {s : Sched} (h : SchedInv s) (command : Int) (rnd : Nat) :
    SchedInv (sched_tick s command rnd) :=
  run_process_inv (dispatch_inv (io_phase_inv h)) command rnd

theorem sched_run_inv (inputs : List (Int × Nat)) : ∀ {s : Sched}, SchedInv s →
    SchedInv (sched_run s inputs) := by
  induction inputs with
  | nil => intro s h; exact h
  | cons a l ih =>
    intro s h
    unfold sched_run
    split
    · exact ih (sched_tick_inv h a.1 a.2)
    · exact h

/-- The ready queue of a consistent scheduler state holds no pid twice. -/
theorem SchedInv.ready_nodup {s : Sched} (h : SchedInv s) : s.ready_q.Nodup := by
  rw [List.nodup_iff_count_le_one]
  intro x
  by_cases hx : x ∈ s.ready_q
  · obtain ⟨p, hp, rfl⟩ := List.mem_map.1 (h.ready_known x hx)
    have := h.one_place p hp
    unfold places at this
    omega
  · rw [List.count_eq_zero_of_not_mem hx]; omega

theorem spawn_children_some (fork : Nat → Int) (rnd : Nat → Nat) : ∀ (n : Nat)
    (r : List ProcInfo × List Int), spawn_children fork rnd n = some r →
    r.1.map ProcInfo.pid = (List.range n).map fork ∧ r.2 = (List.range n).map fork ∧
    (∀ p ∈ r.1, p.is_waiting = false ∧ 0 < p.pid) := by
  intro n
  induction n with
  | zero =>
    intro r h
    simp [spawn_children] at h
    subst h
    simp
  | succ n ih =>
    intro r h
    unfold spawn_children at h
    cases hs : spawn_children fork rnd n with
    | none => rw [hs] at h; simp at h
    | some r0 =>
      obtain ⟨pt, rq⟩ := r0
      rw [hs] at h
      simp only [] at h
      by_cases hpos : 0 < fork n
      · rw [if_pos hpos] at h
        cases h
        obtain ⟨h1, h2, h3⟩ := ih _ hs
        simp only [] at h1 h2 h3
        refine ⟨?_, ?_, ?_⟩
        · simp [List.range_succ, h1]
        · simp [List.range_succ, h2]
        · intro p hp
          rcases List.mem_append.1 hp with hp | hp
          · exact h3 p hp
          · simp at hp; subst hp; exact ⟨rfl, hpos⟩
      · rw [if_neg hpos] at h; simp at h

theorem sched_init_inv (fork : Nat → Int) (rnd : Nat → Nat) (s0 : Sched)
    (h0 : sched_init fork rnd = some s0)
    (hinj : ∀ i j : Nat, i < CHILD_COUNT → j < CHILD_COUNT → fork i = fork j → i = j) :
    SchedInv s0 ∧ s0.p_table.map ProcInfo.pid = (List.range CHILD_COUNT).map fork := by
  unfold sched_init at h0
  cases hs : spawn_children fork rnd CHILD_COUNT with
  | none => rw [hs] at h0; simp at h0
  | some r =>
    rw [hs] at h0
    simp at h0
    subst h0
    obtain ⟨h1, h2, h3⟩ := spawn_children_some fork rnd CHILD_COUNT r hs
    have hnd : ((List.range CHILD_COUNT).map fork).Nodup := by
      apply List.Nodup.map_on _ (List.nodup_range _)
      intro i hi j hj hij
      exact hinj i j (List.mem_range.1 hi) (List.mem_range.1 hj) hij
    refine ⟨⟨?_, ?_, ?_, ?_, ?_⟩, h1⟩
    · show (r.1.map ProcInfo.pid).Nodup
      rw [h1]; exact hnd
    · intro p hp; exact (h3 p hp).2
    · intro x hx
      show x ∈ r.1.map ProcInfo.pid
      rw [h1, ← h2]; exact hx
    · left; rfl
    · intro p hp
      unfold places
      have hpos := (h3 p hp).2
      have hne : ¬ ((-1 : Int) = p.pid) := by omega
      show (if (-1 : Int) = p.pid then 1 else 0) + r.2.count p.pid +
        (if p.is_waiting = true then 1 else 0) = 1
      rw [if_neg hne, (h3 p hp).1, h2]
      have hmem : p.pid ∈ (List.range CHILD_COUNT).map fork := by
        rw [← h1]; exact List.mem_map.2 ⟨p, hp, rfl⟩
      rw [List.count_eq_one_of_mem hnd hmem]
      simp

/-- A tick with both queues empty leaves them empty. -/
theorem kernel_tick_idle (cfg : Config) (oob : PageEntry) (s : Kernel) (msg : MsgBuf)
    (hw : s.wait_queue = []) (hr : s.run_queue = []) :
    (kernel_tick cfg oob s msg).run_queue = [] ∧ (kernel_tick cfg oob s msg).wait_queue = [] := by
  have hd : drain_wait_queue s.wait_queue.length s = s := by rw [hw]; rfl
  have g := status_fields (s.tick % 5 = 0) s
  unfold kernel_tick
  simp only [hd, hr]
  exact ⟨g.1.trans hr, g.2.1.trans hw⟩

/-- At every tick boundary the wait queue is empty and the run queue is a
rotation of the list of all PCBs. -/
theorem run_ticks_queues (cfg : Config) (oob : PageEntry) (replies : Nat → MsgBuf) (n : Nat) :
    (run_ticks cfg oob replies n).wait_queue = [] ∧
    ∃ k : Nat, (run_ticks cfg oob replies n).run_queue =
      ((List.range cfg.PROCESS_COUNT).rotate k).map Int.ofNat := by
  induction n with
  | zero => exact ⟨rfl, 0, by simp [run_ticks, init]⟩
  | succ n ih =>
    obtain ⟨hw, k, hk⟩ := ih
    have hstep : run_ticks cfg oob replies (n + 1) =
        if (run_ticks cfg oob replies n).tick < cfg.SIMULATION_TICKS then
          kernel_tick cfg oob (run_ticks cfg oob replies n) (replies n)
        else run_ticks cfg oob replies n := rfl
    rw [hstep]
    split
    · cases hrot : (List.range cfg.PROCESS_COUNT).rotate k with
      | nil =>
        have hq : (run_ticks cfg oob replies n).run_queue = [] := by rw [hk, hrot]; rfl
        obtain ⟨g1, g2⟩ := kernel_tick_idle cfg oob _ (replies n) hw hq
        exact ⟨g2, k, by rw [g1, hrot]; rfl⟩
      | cons x r =>
        have hq : (run_ticks cfg oob replies n).run_queue = Int.ofNat x :: r.map Int.ofNat := by
          rw [hk, hrot]; rfl
        obtain ⟨f1, f2, _, _⟩ := kernel_tick_fields cfg oob _ (replies n) _ _ hw hq
        refine ⟨f2, k + 1, ?_⟩
        rw [f1, ← List.rotate_rotate, hrot, List.rotate_cons_succ, List.rotate_zero]
        simp
    · exact ⟨hw, k, hk⟩

theorem set_found_pids (x : Int) (y : ProcInfo) (hy : y.pid = x) :
    ∀ (pt : List ProcInfo) (i : Nat), find_proc x pt = some i →
    (pt.set i y).map ProcInfo.pid = pt.map ProcInfo.pid := by
  intro pt
  induction pt with
  | nil => intro i h; simp [find_proc] at h
  | cons p ps ih =>
    intro i h
    unfold find_proc at h
    by_cases hp : p.pid = x
    · rw [if_pos hp] at h
      cases h
      simp [hy, hp]
    · rw [if_neg hp] at h
      cases hf : find_proc x ps with
      | none => rw [hf] at h; simp at h
      | some j =>
        rw [hf] at h
        simp at h
        subst h
        simp only [List.set_cons_succ, List.map_cons]
        rw [ih j hf]

/-- A timer tick neither adds nor removes a process nor changes a pid. -/
theorem sched_tick_pids (s : Sched) (command : Int) (rnd : Nat) :
    (sched_tick s command rnd).p_table.map ProcInfo.pid = s.p_table.map ProcInfo.pid := by
  have h1 : (io_phase s).p_table.map ProcInfo.pid = s.p_table.map ProcInfo.pid := by
    simp only [io_phase, handle_io_completion_eq, List.map_map]
    apply List.map_congr_left
    intro p _
    exact io_step_pid p
  have h2 : ∀ t : Sched, (dispatch t).p_table = t.p_table := by
    intro t
    unfold dispatch
    split
    · split <;> rfl
    · rfl
  have h3 : ∀ t : Sched, (run_process t command rnd).p_table.map ProcInfo.pid =
      t.p_table.map ProcInfo.pid := by
    intro t
    unfold run_process
    by_cases hr : t.running_pid ≠ -1
    · rw [if_pos hr]
      cases hf : find_proc t.running_pid t.p_table with
      | none => rfl
      | some i =>
        obtain ⟨hcp, _⟩ := find_proc_some t.running_pid ⟨0, 0, 0, false⟩ t.p_table i hf
        simp only []
        split
        · exact set_found_pids _ _ (by exact hcp) _ _ hf
        · split
          · exact set_found_pids _ _ (by exact hcp) _ _ hf
          · split
            · exact set_found_pids _ _ (by exact hcp) _ _ hf
            · exact set_found_pids _ _ (by exact hcp) _ _ hf
    · rw [if_neg hr]
  unfold sched_tick
  rw [h3, h2, h1]

theorem sched_run_pids (inputs : List (Int × Nat)) : ∀ (s : Sched),
    (sched_run s inputs).p_table.map ProcInfo.pid = s.p_table.map ProcInfo.pid := by
  induction inputs with
  | nil => intro s; rfl
  | cons a l ih =>
    intro s
    unfold sched_run
    split
    · rw [ih, sched_tick_pids]
    · rfl

/-- C9: at every tick boundary each process is in exactly one place.  In the
paging kernel (term2) the wait queue is always empty and every PCB is in the
run queue exactly once.  In the round-robin scheduler (term1), whatever the
workers answer, the processes of `p_table` are the forked children and each of
them is counted exactly once among running (`running_pid`), ready (`ready_q`,
with multiplicity) and blocked (`is_waiting`); `ready_q` holds no pid twice. -/
theorem process_state_exclusive (cfg : Config) (oob : PageEntry) (replies : Nat → MsgBuf)
    (n : Nat) (fork : Nat → Int) (rnd : Nat → Nat) (s0 : Sched) (inputs : List (Int × Nat))
    (h0 : sched_init fork rnd = some s0)
    (hinj : ∀ i j : Nat, i < CHILD_COUNT → j < CHILD_COUNT → fork i = fork j → i = j) :
    ((run_ticks cfg oob replies n).wait_queue = [] ∧
      (run_ticks cfg oob replies n).run_queue.Nodup ∧
      ∀ i : Int, 0 ≤ i → i < cfg.PROCESS_COUNT →
        kernel_places (run_ticks cfg oob replies n) i = 1) ∧
    ((sched_run s0 inputs).p_table.map ProcInfo.pid = (List.range CHILD_COUNT).map fork ∧
      (sched_run s0 inputs).ready_q.Nodup ∧
      ∀ p ∈ (sched_run s0 inputs).p_table, places (sched_run s0 inputs) p = 1) := by
  constructor
  · obtain ⟨hw, k, hk⟩ := run_ticks_queues cfg oob replies n
    have hnd : (run_ticks cfg oob replies n).run_queue.Nodup := by
      rw [hk]
      apply List.Nodup.map (fun a b hab => Int.ofNat.inj hab)
      exact List.nodup_rotate.2 (List.nodup_range _)
    refine ⟨hw, hnd, ?_⟩
    intro i hi hi'
    obtain ⟨m, rfl⟩ := Int.eq_ofNat_of_zero_le hi
    have hm : m < cfg.PROCESS_COUNT := by exact_mod_cast hi'
    unfold kernel_places
    rw [hw, List.count_nil, add_zero]
    apply List.count_eq_one_of_mem hnd
    rw [hk]
    exact List.mem_map.2 ⟨m, List.mem_rotate.2 (List.mem_range.2 hm), rfl⟩
  · obtain ⟨hinv, hp⟩ := sched_init_inv fork rnd s0 h0 hinj
    have h := sched_run_inv inputs hinv
    exact ⟨by rw [sched_run_pids, hp], h.ready_nodup, h.one_place⟩

/-- C9 for ten children with pids 100..109 whose first answers are: tick
done, I/O request of 5 ticks, tick done, tick done, I/O request of 7 ticks. -/
theorem process_state_exclusive_witness :
    (sched_init (fun i => (i : Int) + 100) (fun _ => 3) =
        some { p_table := (List.range 10).map fun i => ⟨(i : Int) + 100, 4, 0, false⟩
               ready_q := (List.range 10).map fun i => (i : Int) + 100
               running_pid := -1, q_counter := 0, sys_tick := 0 } ∧
      (∀ i j : Nat, i < CHILD_COUNT → j < CHILD_COUNT →
        (i : Int) + 100 = (j : Int) + 100 → i = j)) ∧
    (sched_run { p_table := (List.range 10).map fun i => ⟨(i : Int) + 100, 4, 0, false⟩
                 ready_q := (List.range 10).map fun i => (i : Int) + 100
                 running_pid := -1, q_counter := 0, sys_tick := 0 }
      [(0, 1), (5, 2), (0, 0), (0, 4), (7, 1)]).ready_q.Nodup :=
  ⟨⟨by decide, fun i j _ _ h => by omega⟩,
   (process_state_exclusive source_config PageEntry.initial
     (fun _ => { mtype := 999, pid := 0, cpu_burst := 5, io_burst := 2,
                 access_pages := fun _ => 0 }) 3
     (fun i => (i : Int) + 100) (fun _ => 3) _ [(0, 1), (5, 2), (0, 0), (0, 4), (7, 1)]
     (by decide)
     (fun i j _ _ h => by have h' : (i : Int) + 100 = (j : Int) + 100 := h; omega)).2.2.1⟩

/-! ## C10: page indices outside the page table -/

theorem getI_outside {α : Type} (l : List α) (i : Int) (d : α)
    (h : i < 0 ∨ (l.length : Int) ≤ i) : getI l i d = d := by
  unfold getI
  by_cases h0 : 0 ≤ i
  · have hl : l.length ≤ i.toNat := by omega
    rw [if_pos h0, List.getD_eq_getElem?_getD, List.getElem?_eq_none hl]
    rfl
  · rw [if_neg h0]

set_option maxRecDepth 100000 in
/-- C10, as stated, fails: in the initial state of the source configuration the
accesses of process 0 to the page indices 200 and -1 are not rejected.  When
the slot read outside the page table has `valid = false` they are handled as
page faults (fault counters incremented, frame 0 taken from the free list and
recorded for the page in `frame_table`); when it has `valid = true` the access
is logged as a hit. -/
theorem out_of_range_not_rejected :
    ((access PageEntry.initial (init source_config) 0 200).2.hit = false ∧
      (access PageEntry.initial (init source_config) 0 200).1.total_page_faults = 1 ∧
      (init source_config).total_page_faults = 0 ∧
      fault_count (access PageEntry.initial (init source_config) 0 200).1 0 = 1 ∧
      fault_count (init source_config) 0 = 0 ∧
      (access PageEntry.initial (init source_config) 0 200).1.active_frames_queue = [0] ∧
      (init source_config).active_frames_queue = [] ∧
      getI (access PageEntry.initial (init source_config) 0 200).1.frame_table 0 FrameInfo.none
        = ⟨0, 200⟩ ∧
      getI (init source_config).frame_table 0 FrameInfo.none = ⟨-1, -1⟩) ∧
    ((access PageEntry.initial (init source_config) 0 (-1)).2.hit = false ∧
      (access PageEntry.initial (init source_config) 0 (-1)).1.total_page_faults = 1 ∧
      (access PageEntry.initial (init source_config) 0 (-1)).1.active_frames_queue = [0] ∧
      getI (access PageEntry.initial (init source_config) 0 (-1)).1.frame_table 0
        FrameInfo.none = ⟨0, -1⟩) ∧
    (access ⟨true, false, 7⟩ (init source_config) 0 200).2 = AccessResult.hit_on 7 := by
  refine ⟨⟨?_, ?_, ?_, ?_, ?_, ?_, ?_, ?_, ?_⟩, ⟨?_, ?_, ?_, ?_⟩, ?_⟩ <;> rfl

/-- C10 as amended: the kernel applies no range check.  Whatever the state, the
process and the page index, the access is counted in `total_access` and
resolved by the `valid` flag read through `page_table[page_idx]`, which for an
index outside the vector is whatever lies there (`oob`): if it reads true the
access is a hit and nothing else changes; if it reads false it is a page
fault, `total_page_faults` rises by 1 and a frame is taken from the front of
the free list or, when that is empty, by replacement.  Only the sender keeps
the indices in range: `run_child` sends `rand() % 200`, which is in [0, 200). -/
theorem unchecked_access (oob : PageEntry) (s : Kernel) (p v : Int) (r : Nat) :
    ((v < 0 ∨ ((getI s.pcb_table p PCB.zero).page_table.length : Int) ≤ v) →
      getI (getI s.pcb_table p PCB.zero).page_table v oob = oob) ∧
    ((getI (getI s.pcb_table p PCB.zero).page_table v oob).valid = true →
      access oob s p v =
        ({ s with total_access := s.total_access + 1 },
         AccessResult.hit_on
           (getI (getI s.pcb_table p PCB.zero).page_table v oob).frame_number)) ∧
    ((getI (getI s.pcb_table p PCB.zero).page_table v oob).valid = false →
      (access oob s p v).2.hit = false ∧
      (access oob s p v).1.total_access = s.total_access + 1 ∧
      (access oob s p v).1.total_page_faults = s.total_page_faults + 1 ∧
      (∀ f rest, s.free_frame_list = f :: rest →
        (access oob s p v).2.frame = f ∧
        (access oob s p v).2.replacement_occurred = false ∧
        (access oob s p v).1.free_frame_list = rest ∧
        (access oob s p v).1.active_frames_queue = s.active_frames_queue ++ [f]) ∧
      (s.free_frame_list = [] →
        (access oob s p v).2.replacement_occurred = true ∧
        (access oob s p v).1.total_swap_outs = s.total_swap_outs + 1)) ∧
    (0 ≤ child_access_page r ∧ child_access_page r < PAGE_TABLE_SIZE) := by
  refine ⟨getI_outside _ _ _, ?_, ?_, ?_⟩
  · intro h
    rw [access_hit oob s p v h]; rfl
  · intro h
    refine ⟨?_, (access_sched_fields oob s p v).2.2.2, ?_, ?_, ?_⟩
    · cases hf : s.free_frame_list with
      | cons f rest => rw [access_free oob s p v f rest h hf]
      | nil => simp [access, h, hf]
    · cases hf : s.free_frame_list with
      | cons f rest => rw [access_free oob s p v f rest h hf]
      | nil => simp [access, h, hf]
    · intro f rest hf
      rw [access_free oob s p v f rest h hf]
      exact ⟨rfl, rfl, rfl, rfl⟩
    · intro hf
      simp [access, h, hf]
  · unfold child_access_page PAGE_TABLE_SIZE
    constructor
    · exact Int.emod_nonneg _ (by decide)
    · exact Int.emod_lt_of_pos _ (by decide)

/-- C10 as amended, at the access of process 0 to the page index 200 in the
initial state with two frames, the slot outside the page table reading
`valid = false`: a page fault that takes frame 0 from the free list. -/
theorem unchecked_access_witness :
    (getI (getI (init two_frames).pcb_table 0 PCB.zero).page_table 200 PageEntry.initial).valid
      = false ∧
    ((access PageEntry.initial (init two_frames) 0 200).2.hit = false ∧
      (access PageEntry.initial (init two_frames) 0 200).1.total_access =
        (init two_frames).total_access + 1 ∧
      (access PageEntry.initial (init two_frames) 0 200).1.total_page_faults =
        (init two_frames).total_page_faults + 1) :=
  ⟨rfl,
   let h := (unchecked_access PageEntry.initial (init two_frames) 0 200 0).2.2.1 rfl
   ⟨h.1, h.2.1, h.2.2.1⟩⟩

/-! ## C11: the reply of the handshake -/

set_option maxRecDepth 100000 in
/-- C11, as stated, fails: in the first tick of the source configuration, which
dispatches process 0, a message whose `pid` field is 7 is consumed as the
reply of process 0: its page 3 is resolved against the page table of process 0
(page fault, frame 0) and its `cpu_burst` 42 is stored in the PCB of process 0. -/
theorem foreign_reply_consumed :
    dispatched (init source_config) = some 0 ∧
    (getI (init source_config).pcb_table 0 PCB.zero).logical_pid = 0 ∧
    entryOf (init source_config) 0 3 = ⟨false, false, -1⟩ ∧
    entryOf
      (kernel_tick source_config PageEntry.initial (init source_config)
        { mtype := 999, pid := 7, cpu_burst := 42, io_burst := 2,
          access_pages := fun _ => 3 }) 0 3 = ⟨true, false, 0⟩ ∧
    (getI
      (kernel_tick source_config PageEntry.initial (init source_config)
        { mtype := 999, pid := 7, cpu_burst := 42, io_burst := 2,
          access_pages := fun _ => 3 }).pcb_table 0 PCB.zero).cpu_burst = 42 ∧
    fault_count
      (kernel_tick source_config PageEntry.initial (init source_config)
        { mtype := 999, pid := 7, cpu_burst := 42, io_burst := 2,
          access_pages := fun _ => 3 }) 0 = 1 ∧
    (kernel_tick source_config PageEntry.initial (init source_config)
        { mtype := 999, pid := 7, cpu_burst := 42, io_burst := 2,
          access_pages := fun _ => 3 }).total_access = 10 := by
  refine ⟨?_, ?_, ?_, ?_, ?_, ?_, ?_⟩ <;> rfl

theorem burst_accesses_congr (p : Int) (msg msg' : MsgBuf) (n : Nat)
    (h : ∀ i, i < n → msg'.access_pages i = msg.access_pages i) :
    burst_accesses p msg' n = burst_accesses p msg n := by
  unfold burst_accesses
  apply List.map_congr_left
  intro i hi
  rw [h i (List.mem_range.1 hi)]

/-- C11 as amended: the kernel never reads the `pid` field (nor `mtype` or
`io_burst`) of the message left by `msgrcv`: two messages with the same
`cpu_burst` and the same first `ACCESS_PER_TICK` `access_pages` give the same
tick, whatever their `pid`.  Whatever message is received is consumed as the
reply of the dispatched process `p`: its accesses are resolved for `p`
(`run_burst`) and its `cpu_burst` is stored in the PCB of `p`.  The addressing
is done by the protocol only: the grant has type `logical_pid + 1`, which
identifies one worker, and the reply `run_child` builds carries
`pid = logic_pid`, `mtype = 999` and page indices in [0, 200). -/
theorem reply_consumed_unchecked (cfg : Config) (oob : PageEntry) (s : Kernel)
    (msg msg' : MsgBuf) (p : Int) (rest : List Int) (q cb io : Int) (rands : Nat → Nat) :
    ((∀ i, i < cfg.ACCESS_PER_TICK → msg'.access_pages i = msg.access_pages i) →
      msg'.cpu_burst = msg.cpu_burst →
      kernel_tick cfg oob s msg' = kernel_tick cfg oob s msg) ∧
    (s.wait_queue = [] → s.run_queue = p :: rest →
      kernel_tick cfg oob s msg =
        { (if s.tick % 5 = 0 then print_system_status (run_burst cfg oob s msg p rest)
           else run_burst cfg oob s msg p rest) with tick := s.tick + 1 }) ∧
    (0 ≤ p → p < (run_accesses oob { s with run_queue := rest }
        (burst_accesses p msg cfg.ACCESS_PER_TICK)).pcb_table.length →
      (getI (run_burst cfg oob s msg p rest).pcb_table p PCB.zero).cpu_burst = msg.cpu_burst) ∧
    (grant_mtype p = grant_mtype q ↔ p = q) ∧
    ((child_reply q cb io rands).pid = q ∧ (child_reply q cb io rands).mtype = 999 ∧
      ∀ i, 0 ≤ (child_reply q cb io rands).access_pages i ∧
        (child_reply q cb io rands).access_pages i < PAGE_TABLE_SIZE) := by
  refine ⟨?_, ?_, ?_, ?_, rfl, rfl, ?_⟩
  · intro ha hc
    unfold kernel_tick run_burst
    simp only [burst_accesses_congr _ msg msg' _ ha, hc]
  · intro hw hr
    exact kernel_tick_dispatch cfg oob s msg p rest hw hr
  · intro h0 h1
    have hpcb : (run_burst cfg oob s msg p rest).pcb_table =
        updPCB (run_accesses oob { s with run_queue := rest }
          (burst_accesses p msg cfg.ACCESS_PER_TICK)).pcb_table p
          (fun c => { c with cpu_burst := msg.cpu_burst }) := rfl
    rw [hpcb, getI_updPCB, if_pos ⟨rfl, h0, h1⟩]
  · unfold grant_mtype
    constructor
    · intro h; omega
    · intro h; rw [h]
  · intro i
    unfold child_reply child_access_page PAGE_TABLE_SIZE
    exact ⟨Int.emod_nonneg _ (by decide), Int.emod_lt_of_pos _ (by decide)⟩

/-- C11 as amended, at the first tick of the source configuration: process 0
is at the front of the run queue and the message with `pid = 7` drives its burst. -/
theorem reply_consumed_unchecked_witness :
    ((init source_config).wait_queue = [] ∧
      (init source_config).run_queue = 0 :: [1, 2, 3, 4, 5, 6, 7, 8, 9]) ∧
    kernel_tick source_config PageEntry.initial (init source_config)
        { mtype := 999, pid := 7, cpu_burst := 42, io_burst := 2, access_pages := fun _ => 3 } =
      { (if (init source_config).tick % 5 = 0 then
          print_system_status (run_burst source_config PageEntry.initial (init source_config)
            { mtype := 999, pid := 7, cpu_burst := 42, io_burst := 2,
              access_pages := fun _ => 3 } 0 [1, 2, 3, 4, 5, 6, 7, 8, 9])
         else run_burst source_config PageEntry.initial (init source_config)
            { mtype := 999, pid := 7, cpu_burst := 42, io_burst := 2,
              access_pages := fun _ => 3 } 0 [1, 2, 3, 4, 5, 6, 7, 8, 9]) with
        tick := (init source_config).tick + 1 } :=
  ⟨⟨rfl, rfl⟩,
   (reply_consumed_unchecked source_config PageEntry.initial (init source_config)
     { mtype := 999, pid := 7, cpu_burst := 42, io_burst := 2, access_pages := fun _ => 3 }
     { mtype := 999, pid := 7, cpu_burst := 42, io_burst := 2, access_pages := fun _ => 3 }
     0 [1, 2, 3, 4, 5, 6, 7, 8, 9] 0 0 0 (fun _ => 0)).2.1 rfl rfl⟩

/-! ## C12: cyclic frame assignment -/

theorem fault_log_cons (r : AccessResult) (rs : List AccessResult) :
    fault_log (r :: rs) =
      if r.hit = true then fault_log rs else (r.frame, r.replacement_occurred) :: fault_log rs := by
  unfold fault_log
  cases h : r.hit <;> simp [List.filter_cons, h]

theorem cycShape_init (cfg : Config) : CycShape cfg 0 (init cfg) := by
  constructor
  · rfl
  · simp [init]
  · simp [init]

/-- One in-range access in a state that has the cyclic shape after `n` page
faults: a hit keeps the shape, a fault is the fault number `n` of cyclic
assignment and gives the shape after `n + 1` faults. -/
theorem cyc_step {cfg : Config} {s : Kernel} {n : Nat} (h : Inv cfg s)
    (hc : CycShape cfg n s) (hT : 0 < cfg.TOTAL_FRAMES) (oob : PageEntry) {p v : Int}
    (hp : 0 ≤ p ∧ p < cfg.PROCESS_COUNT) (hv : 0 ≤ v ∧ v < PAGE_TABLE_SIZE) :
    ((access oob s p v).2.hit = true ∧ CycShape cfg n (access oob s p v).1) ∨
    ((access oob s p v).2.hit = false ∧
      ((access oob s p v).2.frame, (access oob s p v).2.replacement_occurred) =
        cyclic_fault cfg.TOTAL_FRAMES n ∧
      CycShape cfg (n + 1) (access oob s p v).1) := by
  cases hval : (entryOf s p v).valid with
  | true =>
    left
    rw [access_hit oob s p v (by rw [h.read_entry oob hp hv]; exact hval)]
    exact ⟨rfl, ⟨hc.faults, hc.free, hc.active⟩⟩
  | false =>
    right
    by_cases hn : n < cfg.TOTAL_FRAMES
    · -- a frame is free: frame `n`
      have hlen : n < (List.range cfg.TOTAL_FRAMES).length := by simpa using hn
      have hfree : s.free_frame_list =
          Int.ofNat n :: ((List.range cfg.TOTAL_FRAMES).drop (n + 1)).map Int.ofNat := by
        rw [hc.free, List.drop_eq_getElem_cons hlen]
        simp
      obtain ⟨hr, hq, hfl, _⟩ := access_free_effect h oob hp hv hval hfree
      obtain ⟨_, _, hpf, _, _, _⟩ := counters_free h oob hp hv hval hfree
      refine ⟨by rw [hr], ?_, ⟨?_, ?_, ?_⟩⟩
      · rw [hr]
        simp [cyclic_fault, Nat.mod_eq_of_lt hn, hn]
      · rw [hpf, hc.faults]; push_cast; ring
      · rw [hfl]
      · rw [hq, hc.active, if_pos (by omega : n ≤ cfg.TOTAL_FRAMES),
          if_pos (by omega : n + 1 ≤ cfg.TOTAL_FRAMES)]
        simp [List.range_succ]
    · -- no frame is free: the front of the queue, which is frame `n mod T`
      have hge : cfg.TOTAL_FRAMES ≤ n := by omega
      have hfree : s.free_frame_list = [] := by
        rw [hc.free, List.drop_eq_nil_of_le (by simpa using hge)]
        rfl
      have hact : s.active_frames_queue =
          ((List.range cfg.TOTAL_FRAMES).rotate n).map Int.ofNat := by
        rw [hc.active]
        by_cases he : n ≤ cfg.TOTAL_FRAMES
        · have hnT : n = cfg.TOTAL_FRAMES := by omega
          rw [if_pos he, hnT]
          have := List.rotate_length (List.range cfg.TOTAL_FRAMES)
          rw [List.length_range] at this
          rw [this]
        · rw [if_neg he]
      have hhead := head_rotate_range cfg.TOTAL_FRAMES n hT
      cases hrot : (List.range cfg.TOTAL_FRAMES).rotate n with
      | nil => rw [hrot] at hhead; simp at hhead
      | cons x r =>
        rw [hrot] at hhead
        simp only [List.head?_cons, Option.some.injEq] at hhead
        have ha : s.active_frames_queue = Int.ofNat x :: r.map Int.ofNat := by
          rw [hact, hrot]; rfl
        obtain ⟨hr, hq, hfl, _, _⟩ := access_evict_effect h oob hp hv hval hfree ha
        obtain ⟨_, _, _, hpf, _, _, _⟩ := counters_evict h oob hp hv hval hfree ha
        refine ⟨by rw [hr], ?_, ⟨?_, ?_, ?_⟩⟩
        · rw [hr]
          simp [cyclic_fault, hhead, hge]
        · rw [hpf, hc.faults]; push_cast; ring
        · rw [hfl, List.drop_eq_nil_of_le (by simp; omega)]
          rfl
        · rw [hq, if_neg (by omega : ¬ n + 1 ≤ cfg.TOTAL_FRAMES), ← List.rotate_rotate, hrot,
            List.rotate_cons_succ, List.rotate_zero]
          simp

/-- Along a run of in-range accesses from a state with the cyclic shape after
`n` faults: the faults of the run are the faults `n`, `n + 1`, ... of cyclic
assignment and the final state has the shape after all of them. -/
theorem cyc_run {cfg : Config} (hT : 0 < cfg.TOTAL_FRAMES) (oob : PageEntry)
    (l : List (Int × Int)) : ∀ {s : Kernel} {n : Nat}, Inv cfg s → CycShape cfg n s →
    InRange cfg l →
    fault_log (access_results oob s l) =
      (List.range' n (fault_log (access_results oob s l)).length).map
        (cyclic_fault cfg.TOTAL_FRAMES) ∧
    CycShape cfg (n + (fault_log (access_results oob s l)).length) (run_accesses oob s l) := by
  induction l with
  | nil =>
    intro s n _ hc _
    simp only [access_results, fault_log, List.filter_nil, List.map_nil, List.length_nil,
      List.range'_zero, Nat.add_zero, run_accesses, List.foldl_nil]
    exact ⟨trivial, hc⟩
  | cons a l ih =>
    intro s n h hc hr
    have ha := hr a (List.mem_cons_self _ _)
    have hrest : InRange cfg l := fun b hb => hr b (List.mem_cons_of_mem _ hb)
    have hinv := inv_access h hT oob ha.1 ha.2
    rw [access_results_cons, run_accesses_cons, fault_log_cons]
    rcases cyc_step h hc hT oob ha.1 ha.2 with ⟨hh, hc'⟩ | ⟨hh, hf, hc'⟩
    · rw [if_pos hh]
      exact ih hinv hc' hrest
    · have hh' : ¬ (access oob s a.1 a.2).2.hit = true := by rw [hh]; simp
      rw [if_neg hh']
      obtain ⟨i1, i2⟩ := ih hinv hc' hrest
      constructor
      · rw [List.length_cons, List.range'_succ, List.map_cons, hf, ← i1]
      · rw [List.length_cons]
        have : n + ((fault_log (access_results oob (access oob s a.1 a.2).1 l)).length + 1) =
            n + 1 + (fault_log (access_results oob (access oob s a.1 a.2).1 l)).length := by
          omega
        rw [this]
        exact i2

/-- C12: with `T = TOTAL_FRAMES > 0`, for every run of in-range accesses from
initialisation, (1, 2) the `k`-th page fault of the run (`k = 1, 2, ...`) is
assigned frame `(k - 1) mod T` and replaces a page exactly when `k > T`;
(3) `total_page_faults` counts the faults; (4) while at most `T` faults have
occurred the FIFO queue is the prefix `0 .. m-1` of the frames and the others
are free; (5) from `T` faults on the free list is empty and the FIFO queue is
the list `0 .. T-1` rotated; (6) once the free list is empty it stays empty. -/
theorem cyclic_frame_assignment (cfg : Config) (hT : 0 < cfg.TOTAL_FRAMES) (oob : PageEntry)
    (l : List (Int × Int)) (hl : InRange cfg l) :
    fault_log (access_results oob (init cfg) l) =
      (List.range (fault_log (access_results oob (init cfg) l)).length).map
        (cyclic_fault cfg.TOTAL_FRAMES) ∧
    (∀ k : Nat, 1 ≤ k → k ≤ (fault_log (access_results oob (init cfg) l)).length →
      (fault_log (access_results oob (init cfg) l))[k - 1]? =
        some (Int.ofNat ((k - 1) % cfg.TOTAL_FRAMES), decide (cfg.TOTAL_FRAMES < k))) ∧
    (run_accesses oob (init cfg) l).total_page_faults =
      (fault_log (access_results oob (init cfg) l)).length ∧
    ((fault_log (access_results oob (init cfg) l)).length ≤ cfg.TOTAL_FRAMES →
      (run_accesses oob (init cfg) l).active_frames_queue =
        (List.range (fault_log (access_results oob (init cfg) l)).length).map Int.ofNat ∧
      (run_accesses oob (init cfg) l).free_frame_list =
        ((List.range cfg.TOTAL_FRAMES).drop
          (fault_log (access_results oob (init cfg) l)).length).map Int.ofNat) ∧
    (cfg.TOTAL_FRAMES ≤ (fault_log (access_results oob (init cfg) l)).length →
      (run_accesses oob (init cfg) l).active_frames_queue =
        ((List.range cfg.TOTAL_FRAMES).rotate
          (fault_log (access_results oob (init cfg) l)).length).map Int.ofNat ∧
      (run_accesses oob (init cfg) l).free_frame_list = []) ∧
    (∀ l2 : List (Int × Int), InRange cfg l2 →
      (run_accesses oob (init cfg) l).free_frame_list = [] →
      (run_accesses oob (run_accesses oob (init cfg) l) l2).free_frame_list = []) := by
  obtain ⟨h1, hc⟩ := cyc_run hT oob l (init_inv cfg) (cycShape_init cfg) hl
  rw [Nat.zero_add] at hc
  rw [← List.range_eq_range'] at h1
  have hinv := inv_run_accesses hT oob l (init_inv cfg) hl
  refine ⟨h1, ?_, hc.faults, ?_, ?_, ?_⟩
  · intro k hk1 hk2
    have hlt : k - 1 < (fault_log (access_results oob (init cfg) l)).length := by omega
    have := congrArg (fun x => x[k - 1]?) h1
    simp only [List.getElem?_map, List.getElem?_range hlt, Option.map_some'] at this
    rw [this]
    unfold cyclic_fault
    have hd : decide (cfg.TOTAL_FRAMES ≤ k - 1) = decide (cfg.TOTAL_FRAMES < k) := by
      apply decide_eq_decide.2
      omega
    rw [hd]
  · intro hm
    refine ⟨?_, hc.free⟩
    rw [hc.active, if_pos hm]
  · intro hm
    constructor
    · rw [hc.active]
      by_cases he : (fault_log (access_results oob (init cfg) l)).length ≤ cfg.TOTAL_FRAMES
      · have hmT : (fault_log (access_results oob (init cfg) l)).length = cfg.TOTAL_FRAMES := by
          omega
        rw [if_pos he, hmT]
        have := List.rotate_length (List.range cfg.TOTAL_FRAMES)
        rw [List.length_range] at this
        rw [this]
      · rw [if_neg he]
    · rw [hc.free, List.drop_eq_nil_of_le (by simpa using hm)]
      rfl
  · intro l2 hl2 hfree
    have hm : cfg.TOTAL_FRAMES ≤ (fault_log (access_results oob (init cfg) l)).length := by
      have hlen := congrArg List.length hc.free
      rw [hfree] at hlen
      simp at hlen
      omega
    obtain ⟨_, hc2⟩ := cyc_run hT oob l2 hinv hc hl2
    rw [hc2.free, List.drop_eq_nil_of_le (by simp; omega)]
    rfl

/-- C12 on the run 0:0, 0:1, 0:2, 0:1 (hit), 1:5 with two frames: the four
faults get the frames 0, 1, 0, 1 and the last two replace a page. -/
theorem cyclic_frame_assignment_witness :
    (0 < two_frames.TOTAL_FRAMES ∧
      InRange two_frames [(0, 0), (0, 1), (0, 2), (0, 1), (1, 5)]) ∧
    fault_log (access_results PageEntry.initial (init two_frames)
        [(0, 0), (0, 1), (0, 2), (0, 1), (1, 5)]) =
      (List.range (fault_log (access_results PageEntry.initial (init two_frames)
        [(0, 0), (0, 1), (0, 2), (0, 1), (1, 5)])).length).map
        (cyclic_fault two_frames.TOTAL_FRAMES) :=
  ⟨⟨by decide, by decide⟩,
   (cyclic_frame_assignment two_frames (by decide) PageEntry.initial
     [(0, 0), (0, 1), (0, 2), (0, 1), (1, 5)] (by decide)).1⟩

end OS2025
